import Mathlib

set_option autoImplicit false

/-!
Verification of the entry-tree / path-addressing core of a tree-based
editor for parsed binary objects (files `helper/wrapper.py` and
`core/model.py`).  Python values are embedded as an inductive `PVal`
(dicts, lists, ints, strings, booleans, None), optionally carrying the
GUI metadata side channel; fallible Python code is embedded in
`Except PyErr`.
-/

/-- Python exceptions raised by the modelled code paths. -/
inductive PyErr where
  | keyError
  | indexError
  | valueError
  | attributeError
  | typeError
deriving DecidableEq, Repr

mutual
/-- A Python runtime value together with the optional GUI metadata that
`add_gui_metadata` attaches to it.  Only the `context` member of the
metadata is modelled, because it is the only member the modelled code
reads. -/
inductive PVal where
  | mk (meta : Option (List (String × PVal))) (core : PyCore)

/-- The underlying value: None, int, bool, str, dict or list. -/
inductive PyCore where
  | noneV
  | intV (n : Int)
  | boolV (b : Bool)
  | strV (s : String)
  | dictV (kvs : List (String × PVal))
  | listV (xs : List PVal)
end

/-- The parse context recovered from the metadata side channel. -/
abbrev Ctx := List (String × PVal)

def PVal.core : PVal → PyCore
  | .mk _ c => c

def PVal.meta : PVal → Option Ctx
  | .mk m _ => m

/-- `obj is None` test of the Python code (metadata cannot be attached to
`None`, so only the core matters). -/
def PVal.isNone : PVal → Bool
  | .mk _ .noneV => true
  | _ => false

/-- Association-list lookup mirroring Python `d[k]` success (first
occurrence; the modelled dicts have unique keys). -/
def dictLookup : List (String × PVal) → String → Option PVal
  | [], _ => none
  | (k, v) :: rest, key => if k = key then some v else dictLookup rest key

/-- Python `d[k] = v`: replaces the value of an existing key in place,
otherwise appends the new key at the end (insertion order preserved). -/
def dictSet : List (String × PVal) → String → PVal → List (String × PVal)
  | [], key, val => [(key, val)]
  | (k, v) :: rest, key, val =>
    if k = key then (k, val) :: rest else (k, v) :: dictSet rest key val

/-- Digit-string to number; `none` when empty or a non-digit occurs. -/
def digitsToNat : List Char → Option Nat
  | [] => none
  | cs =>
    if cs.all Char.isDigit then
      some (cs.foldl (fun a c => a * 10 + (c.toNat - 48)) 0)
    else
      none

/-- Python `int(s)` on a string: optional surrounding whitespace, optional
sign, decimal digits; raises `ValueError` (here `none`) otherwise.
(Underscore separators accepted by CPython are not modelled.) -/
def pyParseInt (s : String) : Option Int :=
  match (s.trim).toList with
  | [] => none
  | c :: rest =>
    if c = '-' then (digitsToNat rest).map (fun n => -(n : Int))
    else if c = '+' then (digitsToNat rest).map (fun n => (n : Int))
    else (digitsToNat (c :: rest)).map (fun n => (n : Int))

/-- Python list indexing `xs[i]` with negative-index wrap-around;
`IndexError` when out of range. -/
def pyListGet (xs : List PVal) (i : Int) : Except PyErr PVal :=
  let j : Int := if i < 0 then i + xs.length else i
  if h : 0 ≤ j ∧ j < xs.length then
    .ok (xs.get ⟨j.toNat, by omega⟩)
  else
    .error .indexError

/-- Python list assignment `xs[i] = v` with negative-index wrap-around. -/
def pyListSet (xs : List PVal) (i : Int) (v : PVal) : Except PyErr (List PVal) :=
  let j : Int := if i < 0 then i + xs.length else i
  if 0 ≤ j ∧ j < xs.length then
    .ok (xs.set j.toNat v)
  else
    .error .indexError

/-- One step of the loop in the `EntryConstruct.obj` getter
(wrapper.py:428-437): a dict is indexed by the segment, a list by
`int(segment)`, and any other value falls through both `isinstance`
tests, leaving `obj` unchanged (the segment is silently skipped). -/
def readStep (obj : PVal) (p : String) : Except PyErr PVal :=
  match obj with
  | .mk _ (.dictV kvs) =>
    match dictLookup kvs p with
    | some v => .ok v
    | none => .error .keyError
  | .mk _ (.listV xs) =>
    match pyParseInt p with
    | some i => pyListGet xs i
    | none => .error .valueError
  | other => .ok other

/-- The `EntryConstruct.obj` getter (wrapper.py:428-437): fold
`readStep` over the path starting from the model's root object. -/
def readPath (obj : PVal) : List String → Except PyErr PVal
  | [] => .ok obj
  | p :: ps =>
    match readStep obj p with
    | .ok next => readPath next ps
    | .error e => .error e

/-- Final assignment of the `EntryConstruct.obj` setter: `obj[last] = v`
for a dict, `obj[int(last)] = v` for a list, and silently nothing for
any other value (both `isinstance` tests fail). -/
def writeLast (obj : PVal) (last : String) (val : PVal) : Except PyErr PVal :=
  match obj with
  | .mk m (.dictV kvs) => .ok (.mk m (.dictV (dictSet kvs last val)))
  | .mk m (.listV xs) =>
    match pyParseInt last with
    | some i => (pyListSet xs i val).map (fun xs2 => .mk m (.listV xs2))
    | none => .error .valueError
  | other => .ok other

/-- The `EntryConstruct.obj` setter (wrapper.py:439-452): traverse all
but the last segment exactly like the getter (non-containers silently
skipped), then assign at the last segment.  An empty path makes Python
evaluate `path[-1]`, an `IndexError`, unless the traversal ended on a
non-container, in which case nothing at all happens.  In-place mutation
of the nested object graph is rendered functionally: the result is the
updated root object. -/
def writePath (obj : PVal) (path : List String) (val : PVal) : Except PyErr PVal :=
  match path with
  | [] =>
    match obj with
    | .mk _ (.dictV _) => .error .indexError
    | .mk _ (.listV _) => .error .indexError
    | other => .ok other
  | [last] => writeLast obj last val
  | p :: rest =>
    match obj with
    | .mk m (.dictV kvs) =>
      match dictLookup kvs p with
      | some child =>
        match writePath child rest val with
        | .ok child2 => .ok (.mk m (.dictV (dictSet kvs p child2)))
        | .error e => .error e
      | none => .error .keyError
    | .mk m (.listV xs) =>
      match pyParseInt p with
      | some i =>
        match pyListGet xs i with
        | .ok child =>
          match writePath child rest val with
          | .ok child2 => (pyListSet xs i child2).map (fun xs2 => .mk m (.listV xs2))
          | .error e => .error e
        | .error e => .error e
      | none => .error .valueError
    | other => writePath other rest val

/-- Container test matching the two `isinstance` checks of the getter
and setter: only dicts and lists are containers. -/
def PVal.isContainer : PVal → Bool
  | .mk _ (.dictV _) => true
  | .mk _ (.listV _) => true
  | _ => false

/-- The demonstration leaf value `5` (no metadata attached). -/
def leafFive : PVal := .mk none (.intV 5)

/-- C1 counterexample: with the root object being the plain leaf `5`
(not a container) and the path `["a"]`, the claim demands an
`AddressingError` because the path runs past a leaf; the getter instead
silently skips the segment and returns the leaf, and the setter silently
does nothing, so the claim as stated is false. -/
theorem C1_read_write_leaf_skip_counterexample :
    leafFive.isContainer = false ∧
    readPath leafFive ["a"] = .ok leafFive ∧
    writePath leafFive ["a"] (.mk none (.intV 7)) = .ok leafFive ∧
    ¬(∀ obj : PVal, obj.isContainer = false →
        ∃ e : PyErr, readPath obj ["a"] = .error e) := by
  refine ⟨rfl, rfl, rfl, fun h => ?_⟩
  obtain ⟨e, he⟩ := h leafFive rfl
  simp [readPath, readStep, leafFive] at he

/-- C1 amended: the getter and setter traverse dict keys and list
integer indices segment by segment; a missing dict key raises
`KeyError`, a non-integer segment over a list raises `ValueError`, an
out-of-range index raises `IndexError`, and the errors propagate to the
caller unrecovered — but a segment whose current value is not a
container is silently skipped (the value passes through unchanged)
instead of raising. -/
theorem C1_read_write_traversal_amended :
    (∀ (m : Option Ctx) (kvs : List (String × PVal)) (p : String) (ps : List String),
        dictLookup kvs p = none →
        readPath (.mk m (.dictV kvs)) (p :: ps) = .error .keyError) ∧
    (∀ (m : Option Ctx) (kvs : List (String × PVal)) (p : String)
        (ps : List String) (v : PVal),
        dictLookup kvs p = some v →
        readPath (.mk m (.dictV kvs)) (p :: ps) = readPath v ps) ∧
    (∀ (m : Option Ctx) (xs : List PVal) (p : String) (ps : List String),
        pyParseInt p = none →
        readPath (.mk m (.listV xs)) (p :: ps) = .error .valueError) ∧
    (∀ (m : Option Ctx) (xs : List PVal) (p : String) (ps : List String) (i : Int),
        pyParseInt p = some i → pyListGet xs i = .error .indexError →
        readPath (.mk m (.listV xs)) (p :: ps) = .error .indexError) ∧
    (∀ (obj : PVal) (p : String) (ps : List String),
        obj.isContainer = false →
        readPath obj (p :: ps) = readPath obj ps) ∧
    (∀ (obj : PVal) (p : String) (ps : List String) (e : PyErr),
        readStep obj p = .error e →
        readPath obj (p :: ps) = .error e) ∧
    (∀ (m : Option Ctx) (kvs : List (String × PVal)) (last : String) (v : PVal),
        writePath (.mk m (.dictV kvs)) [last] v =
          .ok (.mk m (.dictV (dictSet kvs last v)))) ∧
    (∀ (obj : PVal) (last : String) (v : PVal),
        obj.isContainer = false →
        writePath obj [last] v = .ok obj) ∧
    (∀ (m : Option Ctx) (kvs : List (String × PVal)) (p q : String)
        (qs : List String) (v : PVal),
        dictLookup kvs p = none →
        writePath (.mk m (.dictV kvs)) (p :: q :: qs) v = .error .keyError) ∧
    (∀ (obj : PVal) (p q : String) (qs : List String) (v : PVal),
        obj.isContainer = false →
        writePath obj (p :: q :: qs) v = writePath obj (q :: qs) v) := by
  refine ⟨?_, ?_, ?_, ?_, ?_, ?_, ?_, ?_, ?_, ?_⟩
  · intro m kvs p ps h
    simp [readPath, readStep, h]
  · intro m kvs p ps v h
    simp [readPath, readStep, h]
  · intro m xs p ps h
    simp [readPath, readStep, h]
  · intro m xs p ps i h hg
    simp [readPath, readStep, h, hg]
  · intro obj p ps h
    match obj, h with
    | .mk m .noneV, _ => simp [readPath, readStep]
    | .mk m (.intV n), _ => simp [readPath, readStep]
    | .mk m (.boolV b), _ => simp [readPath, readStep]
    | .mk m (.strV s), _ => simp [readPath, readStep]
  · intro obj p ps e h
    simp [readPath, h]
  · intro m kvs last v
    simp [writePath, writeLast]
  · intro obj last v h
    match obj, h with
    | .mk m .noneV, _ => simp [writePath, writeLast]
    | .mk m (.intV n), _ => simp [writePath, writeLast]
    | .mk m (.boolV b), _ => simp [writePath, writeLast]
    | .mk m (.strV s), _ => simp [writePath, writeLast]
  · intro m kvs p q qs v h
    simp [writePath, h]
  · intro obj p q qs v h
    match obj, h with
    | .mk m .noneV, _ => simp [writePath]
    | .mk m (.intV n), _ => simp [writePath]
    | .mk m (.boolV b), _ => simp [writePath]
    | .mk m (.strV s), _ => simp [writePath]

/-- Witness for `C1_read_write_traversal_amended` at concrete inputs:
a missing dict key raises `KeyError` and a leaf is silently skipped. -/
theorem C1_read_write_traversal_amended_witness :
    readPath (.mk none (.dictV [])) ["k"] = .error .keyError ∧
    readPath leafFive ("a" :: ["b"]) = readPath leafFive ["b"] :=
  ⟨C1_read_write_traversal_amended.1 none [] "k" [] rfl,
   C1_read_write_traversal_amended.2.2.2.2.1 leafFive "a" ["b"] rfl⟩

/-- Runtime types (Python classes) relevant to the factory dispatch in
`create_entry_from_construct`.  The class hierarchy is modelled only as
far as the dispatch observes it: every grammar-node type is a subclass
of the base `cs.Construct` type, and one unregistered subclass of a
registered type (`bytesSubclassT <: bytesT`) plus one unregistered plain
construct type (`paddedT`) and one non-construct type (`intTypeT`) are
included to exercise the fallback branches. -/
inductive TypeId where
  | bytesT | formatFieldT | bytesIntegerT | bitsIntegerT | enumT | flagsEnumT
  | structT | arrayT | greedyRangeT | renamedT | constT | computedT | defaultT
  | timestampAdapterT | ifThenElseT | switchT | pointerT | peekT | seekT
  | tellT | passT | rawCopyT | transformedT | restreamedT
  | tstructT | tbitstructT | tenumT | includeGuiMetaDataT
  | constructT
  | bytesSubclassT
  | paddedT
  | intTypeT
deriving DecidableEq, Repr

/-- Python `issubclass` over the modelled types (used by `isinstance`). -/
def TypeId.subclassOf (a b : TypeId) : Bool :=
  a = b ∨ (b = .constructT ∧ a ≠ .intTypeT) ∨ (a = .bytesSubclassT ∧ b = .bytesT)

/-- The condition of an `IfThenElse` grammar node.  The source passes it
to `evaluate(param, context)`: a non-callable value stands for itself, a
callable is applied to the context.  Callables are modelled as a small
code type (a context lookup) so that entries stay comparable and
executable. -/
inductive CondFunc where
  | constB (b : Bool)
  | ctxFlag (key : String)
deriving DecidableEq, Repr

/-- `evaluate(condfunc, context)` (wrapper.py:19-20): a constant stands
for itself; the modelled callable looks its key up in the context (a
missing key raises `KeyError`, which propagates). -/
def condEvaluate : CondFunc → Ctx → Except PyErr PVal
  | .constB b, _ => .ok (.mk none (.boolV b))
  | .ctxFlag k, ctx =>
    match dictLookup ctx k with
    | some v => .ok v
    | none => .error .keyError

/-- Python truthiness, as used by `if cond:`. -/
def pyTruthy : PVal → Bool
  | .mk _ .noneV => false
  | .mk _ (.intV n) => n ≠ 0
  | .mk _ (.boolV b) => b
  | .mk _ (.strV s) => s ≠ ""
  | .mk _ (.dictV kvs) => !kvs.isEmpty
  | .mk _ (.listV xs) => !xs.isEmpty

/-- Rendering of a condition in the synthetic branch name
`f"If {condfunc} then"`. -/
def condFuncRepr : CondFunc → String
  | .constB b => if b then "True" else "False"
  | .ctxFlag _ => "<lambda>"

/-- The key function of a `Switch` grammar node, analogous to
`CondFunc`. -/
inductive KeyFunc where
  | constK (s : String)
  | ctxKey (key : String)
deriving DecidableEq, Repr

/-- `evaluate(keyfunc, context)` for a switch. -/
def keyEvaluate : KeyFunc → Ctx → Except PyErr PVal
  | .constK s, _ => .ok (.mk none (.strV s))
  | .ctxKey k, ctx =>
    match dictLookup ctx k with
    | some v => .ok v
    | none => .error .keyError

/-- Rendering of a key function in the synthetic case name. -/
def keyFuncRepr : KeyFunc → String
  | .constK s => s
  | .ctxKey _ => "<lambda>"

/-- A declared count/length field of a grammar node: either a literal
integer (`isinstance(count, int)` succeeds) or something dynamic such as
a lambda, kept only as its rendering. -/
inductive CountSpec where
  | lit (n : Int)
  | dyn (reprS : String)
deriving DecidableEq, Repr

/-- `str(count)` for the static fallback labels. -/
def countRepr : CountSpec → String
  | .lit n => toString n
  | .dyn r => r

/-- The grammar nodes (`construct` library classes) handled by the entry
hierarchy, mirroring the keys of `entry_mapping_construct`
(wrapper.py:1387-1490) plus the extra runtime types used to exercise the
dispatch fallbacks. -/
inductive Construct where
  | bytesC (length : CountSpec)
  | formatFieldC (fmtstr : String)
  | bytesIntegerC (length : CountSpec) (signed : Bool) (swapped : Bool)
  | bitsIntegerC (length : CountSpec) (signed : Bool)
  | enumC (sub : Construct)
  | flagsEnumC (sub : Construct)
  | structC (subs : List Construct)
  | arrayC (count : CountSpec) (sub : Construct)
  | greedyRangeC (sub : Construct)
  | renamedC (newname : Option String) (sub : Construct)
  | constC (sub : Construct)
  | computedC
  | defaultC (sub : Construct)
  | timestampC (sub : Construct)
  | ifThenElseC (condfunc : CondFunc) (thensub : Construct) (elsesub : Construct)
  | switchC (keyfunc : KeyFunc) (cases : List (String × Construct))
      (defaultSub : Option Construct)
  | pointerC (sub : Construct)
  | peekC (sub : Construct)
  | seekC
  | tellC
  | passC
  | rawCopyC (sub : Construct)
  | transformedC (sub : Construct)
  | restreamedC (sub : Construct)
  | tstructC (reverse : Bool) (sub : Construct)
  | tbitstructC (reverse : Bool) (sub : Construct)
  | tenumC (sub : Construct)
  | includeMetaC (sub : Construct)
  | bytesSubC (length : CountSpec)
  | paddedC

/-- The runtime type (`type(subcon)`) of a grammar node. -/
def Construct.typeOf : Construct → TypeId
  | .bytesC _ => .bytesT
  | .formatFieldC _ => .formatFieldT
  | .bytesIntegerC _ _ _ => .bytesIntegerT
  | .bitsIntegerC _ _ => .bitsIntegerT
  | .enumC _ => .enumT
  | .flagsEnumC _ => .flagsEnumT
  | .structC _ => .structT
  | .arrayC _ _ => .arrayT
  | .greedyRangeC _ => .greedyRangeT
  | .renamedC _ _ => .renamedT
  | .constC _ => .constT
  | .computedC => .computedT
  | .defaultC _ => .defaultT
  | .timestampC _ => .timestampAdapterT
  | .ifThenElseC _ _ _ => .ifThenElseT
  | .switchC _ _ _ => .switchT
  | .pointerC _ => .pointerT
  | .peekC _ => .peekT
  | .seekC => .seekT
  | .tellC => .tellT
  | .passC => .passT
  | .rawCopyC _ => .rawCopyT
  | .transformedC _ => .transformedT
  | .restreamedC _ => .restreamedT
  | .tstructC _ _ => .tstructT
  | .tbitstructC _ _ => .tbitstructT
  | .tenumC _ => .tenumT
  | .includeMetaC _ => .includeGuiMetaDataT
  | .bytesSubC _ => .bytesSubclassT
  | .paddedC => .paddedT

/-- The `name` attribute of a grammar node: only `Renamed` carries one
(the `construct` library stores `None` everywhere else). -/
def Construct.nameOf : Construct → Option String
  | .renamedC n _ => n
  | _ => none

/-- Value kind stored in `EntryFormatField.type_infos` (only the first
two tuple members, label and Python type, are ever read by the modelled
methods; width and signedness are therefore not carried). -/
inductive FFKind where
  | intK
  | floatK
deriving DecidableEq, Repr

/-- The `type_mapping` table of `EntryFormatField.__init__`
(wrapper.py:912-946). -/
def ffTypeInfos : String → Option (String × FFKind)
  | ">B" => some ("Int8ub", .intK)
  | ">H" => some ("Int16ub", .intK)
  | ">L" => some ("Int32ub", .intK)
  | ">Q" => some ("Int64ub", .intK)
  | ">b" => some ("Int8sb", .intK)
  | ">h" => some ("Int16sb", .intK)
  | ">l" => some ("Int32sb", .intK)
  | ">q" => some ("Int64sb", .intK)
  | "<B" => some ("Int8ul", .intK)
  | "<H" => some ("Int16ul", .intK)
  | "<L" => some ("Int32ul", .intK)
  | "<Q" => some ("Int64ul", .intK)
  | "<b" => some ("Int8sl", .intK)
  | "<h" => some ("Int16sl", .intK)
  | "<l" => some ("Int32sl", .intK)
  | "<q" => some ("Int64sl", .intK)
  | "=B" => some ("Int8un", .intK)
  | "=H" => some ("Int16un", .intK)
  | "=L" => some ("Int32un", .intK)
  | "=Q" => some ("Int64un", .intK)
  | "=b" => some ("Int8sn", .intK)
  | "=h" => some ("Int16sn", .intK)
  | "=l" => some ("Int32sn", .intK)
  | "=q" => some ("Int64sn", .intK)
  | ">e" => some ("Float16b", .floatK)
  | "<e" => some ("Float16l", .floatK)
  | "=e" => some ("Float16n", .floatK)
  | ">f" => some ("Float32b", .floatK)
  | "<f" => some ("Float32l", .floatK)
  | "=f" => some ("Float32n", .floatK)
  | ">d" => some ("Float64b", .floatK)
  | "<d" => some ("Float64l", .floatK)
  | "=d" => some ("Float64n", .floatK)
  | _ => none

/-- The entry tree, one variant per `Entry…` class of wrapper.py.  Each
variant stores its grammar node and exactly the state its `__init__`
stores: eagerly built sub-entries for structs, the wrapped sub-entry for
`EntrySubconstruct` descendants, the mutable children cache
(`_subentries`) for arrays and greedy ranges, the two permanently
allocated branch entries for conditionals, the case and default entries
for switches, and the `_exclude_from_path` flag for renamed wrappers.
Parent links are not stored; functions that need the parent chain take
it as an explicit argument (root-last list of ancestor entries). -/
inductive Entry where
  | base (construct : Construct)
  | ebytes (construct : Construct)
  | eformatField (construct : Construct) (typeInfos : Option (String × FFKind))
  | ebytesInteger (construct : Construct)
  | ebitsInteger (construct : Construct)
  | eenum (construct : Construct) (sub : Entry)
  | eflagsEnum (construct : Construct) (sub : Entry)
  | estruct (construct : Construct) (subs : List Entry)
  | earray (construct : Construct) (sub : Entry) (cache : List Entry)
  | egreedyRange (construct : Construct) (sub : Entry) (cache : List Entry)
  | erenamed (construct : Construct) (excludeFromPath : Bool) (sub : Entry)
  | etransparent (construct : Construct) (sub : Entry)
  | ecomputed (construct : Construct)
  | etimestamp (construct : Construct) (sub : Entry)
  | eifThenElse (construct : Construct) (subThen : Entry) (subElse : Entry)
  | eswitch (construct : Construct) (cases : List (String × Entry))
      (defaultE : Option Entry)
  | epeek (construct : Construct) (sub : Entry)
  | eseek (construct : Construct)
  | etell (construct : Construct)
  | epassE (construct : Construct)
  | erawCopy (construct : Construct) (sub : Entry)
  | etstruct (construct : Construct) (sub : Entry)
  | etbitstruct (construct : Construct) (sub : Entry)
  | etenum (construct : Construct) (sub : Entry)

/-- The grammar node an entry represents (`self.construct`). -/
def Entry.constructOf : Entry → Construct
  | .base c => c
  | .ebytes c => c
  | .eformatField c _ => c
  | .ebytesInteger c => c
  | .ebitsInteger c => c
  | .eenum c _ => c
  | .eflagsEnum c _ => c
  | .estruct c _ => c
  | .earray c _ _ => c
  | .egreedyRange c _ _ => c
  | .erenamed c _ _ => c
  | .etransparent c _ => c
  | .ecomputed c => c
  | .etimestamp c _ => c
  | .eifThenElse c _ _ => c
  | .eswitch c _ _ => c
  | .epeek c _ => c
  | .eseek c => c
  | .etell c => c
  | .epassE c => c
  | .erawCopy c _ => c
  | .etstruct c _ => c
  | .etbitstruct c _ => c
  | .etenum c _ => c

/-- `EntryConstruct.name` (wrapper.py:455-460): the grammar node's name,
or the empty string when unnamed. -/
def Entry.name (e : Entry) : String :=
  match e.constructOf.nameOf with
  | some n => n
  | none => ""

/-- Whether the entry is an `EntryRenamed` marked `_exclude_from_path`
(only renamed wrappers carry that flag). -/
def Entry.excludedFromPath : Entry → Bool
  | .erenamed _ ex _ => ex
  | _ => false

mutual

/-- `create_entry_from_construct` composed with the `__init__` of the
class each grammar node dispatches to (the dispatch itself is
`createEntryFromConstruct` below, proved to agree).  Sub-entries are
built recursively exactly as the `__init__` bodies do:
`EntrySubconstruct` builds its wrapped entry from `construct.subcon`;
`EntryStruct` builds one entry per declared field; `EntryArray` and
`EntryGreedyRange` start with an empty `_subentries` cache;
`EntryIfThenElse` builds its two branch entries as renamed wrappers with
synthetic names, excluded from the path; `EntrySwitch` builds one such
wrapper per case plus the optional default; `EntryRenamed` starts from
`exclude_from_path=False` and switches it on when the wrapper and its
wrapped node resolve to the same name (nested-rename collapse,
wrapper.py:1095-1099). -/
def createEntry : Construct → Entry
  | .bytesC len => .ebytes (.bytesC len)
  | .formatFieldC f => .eformatField (.formatFieldC f) (ffTypeInfos f)
  | .bytesIntegerC len sg sw => .ebytesInteger (.bytesIntegerC len sg sw)
  | .bitsIntegerC len sg => .ebitsInteger (.bitsIntegerC len sg)
  | .enumC sub => .eenum (.enumC sub) (createEntry sub)
  | .flagsEnumC sub => .eflagsEnum (.flagsEnumC sub) (createEntry sub)
  | .structC subs => .estruct (.structC subs) (createEntryList subs)
  | .arrayC cnt sub => .earray (.arrayC cnt sub) (createEntry sub) []
  | .greedyRangeC sub => .egreedyRange (.greedyRangeC sub) (createEntry sub) []
  | .renamedC n sub =>
    .erenamed (.renamedC n sub) (decide (n = sub.nameOf)) (createEntry sub)
  | .constC sub => .etransparent (.constC sub) (createEntry sub)
  | .computedC => .ecomputed .computedC
  | .defaultC sub => .etransparent (.defaultC sub) (createEntry sub)
  | .timestampC sub => .etimestamp (.timestampC sub) (createEntry sub)
  | .ifThenElseC cf t e =>
    .eifThenElse (.ifThenElseC cf t e)
      (.erenamed (.renamedC (some ("If " ++ condFuncRepr cf ++ " then")) t) true
        (createEntry t))
      (.erenamed (.renamedC (some "Else") e) true (createEntry e))
  | .switchC kf cases dflt =>
    .eswitch (.switchC kf cases dflt) (createEntryCases kf cases)
      (match dflt with
       | some d =>
         some (.erenamed (.renamedC (some "Default") d) true (createEntry d))
       | none => none)
  | .pointerC sub => .etransparent (.pointerC sub) (createEntry sub)
  | .peekC sub => .epeek (.peekC sub) (createEntry sub)
  | .seekC => .eseek .seekC
  | .tellC => .etell .tellC
  | .passC => .epassE .passC
  | .rawCopyC sub => .erawCopy (.rawCopyC sub) (createEntry sub)
  | .transformedC sub => .etransparent (.transformedC sub) (createEntry sub)
  | .restreamedC sub => .etransparent (.restreamedC sub) (createEntry sub)
  | .tstructC rev sub => .etstruct (.tstructC rev sub) (createEntry sub)
  | .tbitstructC rev sub => .etbitstruct (.tbitstructC rev sub) (createEntry sub)
  | .tenumC sub => .etenum (.tenumC sub) (createEntry sub)
  | .includeMetaC sub => .etransparent (.includeMetaC sub) (createEntry sub)
  | .bytesSubC len => .ebytes (.bytesSubC len)
  | .paddedC => .base .paddedC

/-- One entry per declared struct field (`EntryStruct.__init__`,
wrapper.py:585-590). -/
def createEntryList : List Construct → List Entry
  | [] => []
  | c :: rest => createEntry c :: createEntryList rest

/-- One renamed, path-excluded case entry per switch case
(`EntrySwitch.__init__`, wrapper.py:834-844). -/
def createEntryCases (kf : KeyFunc) : List (String × Construct) → List (String × Entry)
  | [] => []
  | (k, v) :: rest =>
    (k,
     Entry.erenamed
       (.renamedC (some ("Case " ++ keyFuncRepr kf ++ " == " ++ k)) v) true
       (createEntry v)) :: createEntryCases kf rest
end

/-- `EntryConstruct.path` (wrapper.py:511-524) together with the
`EntryRenamed.path` override (wrapper.py:1101-1110), computed over the
chain `entry :: parent :: grandparent :: … :: root`.  A renamed wrapper
marked exclude-from-path returns its parent's path (or `[]` with no
parent); any other entry returns `[]` with no parent, and otherwise the
parent's path with its own name appended when the name is non-empty. -/
def pathRev : List Entry → List String
  | [] => []
  | e :: anc =>
    if e.excludedFromPath then
      pathRev anc
    else
      match anc with
      | [] => []
      | _ :: _ => pathRev anc ++ (if e.name ≠ "" then [e.name] else [])

/-- C3 counterexample: a root entry (no parent) carrying the non-empty
name "x" and not excluded from the path.  The claim demands the path
`["x"]`; `EntryConstruct.path` returns `[]` whenever `parent is None`,
regardless of the name. -/
theorem C3_root_path_counterexample :
    (createEntry (.renamedC (some "x") (.formatFieldC ">B"))).excludedFromPath
        = false ∧
    (createEntry (.renamedC (some "x") (.formatFieldC ">B"))).name = "x" ∧
    pathRev [createEntry (.renamedC (some "x") (.formatFieldC ">B"))] = [] ∧
    pathRev [createEntry (.renamedC (some "x") (.formatFieldC ">B"))]
        ≠ [(createEntry (.renamedC (some "x") (.formatFieldC ">B"))).name] := by
  refine ⟨?_, ?_, ?_, ?_⟩
  · simp [createEntry, Entry.excludedFromPath, Construct.nameOf]
  · simp [createEntry, Entry.name, Entry.constructOf, Construct.nameOf]
  · simp [createEntry, pathRev]
  · simp [createEntry, pathRev, Entry.name, Entry.constructOf, Construct.nameOf]

/-- C3 amended: for an entry with a parent, the path is the parent's
path extended with the entry's name exactly when the name is non-empty
and the entry is not excluded from the path; for a root entry (no
parent) the path is `[]` regardless of the name. -/
theorem C3_path_recursion_amended :
    (∀ (e p : Entry) (anc : List Entry),
        e.excludedFromPath = false → e.name ≠ "" →
        pathRev (e :: p :: anc) = pathRev (p :: anc) ++ [e.name]) ∧
    (∀ (e p : Entry) (anc : List Entry),
        e.excludedFromPath = false → e.name = "" →
        pathRev (e :: p :: anc) = pathRev (p :: anc)) ∧
    (∀ (e : Entry) (anc : List Entry),
        e.excludedFromPath = true →
        pathRev (e :: anc) = pathRev anc) ∧
    (∀ e : Entry, pathRev [e] = []) := by
  refine ⟨?_, ?_, ?_, ?_⟩
  · intro e p anc hex hn
    simp [pathRev, hex, hn]
  · intro e p anc hex hn
    simp [pathRev, hex, hn]
  · intro e anc hex
    simp [pathRev, hex]
  · intro e
    by_cases hex : e.excludedFromPath <;> simp [pathRev, hex]

/-- Witness for `C3_path_recursion_amended`: a named child below a root
struct produces the single-segment path, and the root alone produces the
empty path. -/
theorem C3_path_recursion_amended_witness :
    pathRev [createEntry (.renamedC (some "a") (.formatFieldC ">B")),
             createEntry (.structC [])] = pathRev [createEntry (.structC [])] ++ ["a"] ∧
    pathRev [createEntry (.structC [])] = [] := by
  constructor
  · have h := C3_path_recursion_amended.1
      (createEntry (.renamedC (some "a") (.formatFieldC ">B")))
      (createEntry (.structC [])) []
      (by simp [createEntry, Entry.excludedFromPath, Construct.nameOf])
      (by simp [createEntry, Entry.name, Entry.constructOf, Construct.nameOf])
    simpa [createEntry, Entry.name, Entry.constructOf, Construct.nameOf] using h
  · exact C3_path_recursion_amended.2.2.2 (createEntry (.structC []))

/-- C8 confirmed: a renamed wrapper marked exclude-from-path contributes
no path segment (its path is its parent's path); building the entry for
a rename that wraps another node resolving to the same name
automatically sets the exclude flag on the outer wrapper, so a nested
rename `Renamed(Renamed(c, newname=n), newname=n)` emits exactly one
path segment `n` (on the inner entry; the outer one falls through). -/
theorem C8_renamed_exclude_collapse :
    (∀ (c : Construct) (sub : Entry) (anc : List Entry),
        pathRev (Entry.erenamed c true sub :: anc) = pathRev anc) ∧
    (∀ (n : Option String) (inner : Construct),
        n = inner.nameOf →
        (createEntry (.renamedC n inner)).excludedFromPath = true) ∧
    (∀ (nm : String) (c : Construct) (anc : List Entry),
        nm ≠ "" → c.nameOf ≠ some nm →
        pathRev (createEntry (.renamedC (some nm) c)
            :: createEntry (.renamedC (some nm) (.renamedC (some nm) c)) :: anc)
          = pathRev anc ++ [nm]) := by
  refine ⟨?_, ?_, ?_⟩
  · intro c sub anc
    simp [pathRev, Entry.excludedFromPath]
  · intro n inner hn
    simp [createEntry, Entry.excludedFromPath, hn]
  · intro nm c anc hnm hcn
    have hinner : (createEntry (.renamedC (some nm) c)).excludedFromPath = false := by
      simp [createEntry, Entry.excludedFromPath]
      exact fun h => hcn h.symm
    have houter :
        (createEntry (.renamedC (some nm) (.renamedC (some nm) c))).excludedFromPath
          = true := by
      simp [createEntry, Entry.excludedFromPath, Construct.nameOf]
    have hname : (createEntry (.renamedC (some nm) c)).name = nm := by
      simp [createEntry, Entry.name, Entry.constructOf, Construct.nameOf]
    simp [pathRev, hinner, houter, hname, hnm]

/-- Witness for `C8_renamed_exclude_collapse` at a concrete nested
rename: `Renamed(Renamed(Int8ub-like, newname="f"), newname="f")` under
a root struct yields the single-segment path `["f"]` for the inner
entry. -/
theorem C8_renamed_exclude_collapse_witness :
    pathRev [createEntry (.renamedC (some "f") (.formatFieldC ">B")),
             createEntry (.renamedC (some "f")
               (.renamedC (some "f") (.formatFieldC ">B"))),
             createEntry (.structC [])]
      = pathRev [createEntry (.structC [])] ++ ["f"] ∧
    (createEntry (.renamedC (some "f")
        (.renamedC (some "f") (.formatFieldC ">B")))).excludedFromPath = true := by
  constructor
  · exact C8_renamed_exclude_collapse.2.2 "f" (.formatFieldC ">B")
      [createEntry (.structC [])] (by decide)
      (by simp [Construct.nameOf])
  · exact C8_renamed_exclude_collapse.2.1 (some "f")
      (.renamedC (some "f") (.formatFieldC ">B")) (by simp [Construct.nameOf])

/-- The factory's input: either a grammar node (an instance of a
`cs.Construct` subclass) or some other Python object (modelled by its
runtime type only). -/
inductive PyAny where
  | con (c : Construct)
  | nonConstruct (ty : TypeId)

/-- `type(subcon)` for a factory input. -/
def PyAny.typeOf : PyAny → TypeId
  | .con c => c.typeOf
  | .nonConstruct ty => ty

/-- Identifies which `Entry…` class constructor a mapping row points to
(the values of `entry_mapping_construct`; `EntryTransparentSubcon` is
shared by several keys). -/
inductive CtorTag where
  | tagBytes | tagFormatField | tagBytesInteger | tagBitsInteger
  | tagEnum | tagFlagsEnum | tagStruct | tagArray | tagGreedyRange
  | tagRenamed | tagTransparent | tagComputed | tagTimestamp
  | tagIfThenElse | tagSwitch | tagPeek | tagSeek | tagTell | tagPass
  | tagRawCopy | tagTStruct | tagTBitStruct | tagTEnum
deriving DecidableEq, Repr

/-- `entry_mapping_construct` (wrapper.py:1387-1490): the ordered
registry from grammar-node type to entry-class constructor, in source
insertion order. -/
def entryMapping : List (TypeId × CtorTag) :=
  [(.bytesT, .tagBytes),
   (.formatFieldT, .tagFormatField),
   (.bytesIntegerT, .tagBytesInteger),
   (.bitsIntegerT, .tagBitsInteger),
   (.enumT, .tagEnum),
   (.flagsEnumT, .tagFlagsEnum),
   (.structT, .tagStruct),
   (.arrayT, .tagArray),
   (.greedyRangeT, .tagGreedyRange),
   (.renamedT, .tagRenamed),
   (.constT, .tagTransparent),
   (.computedT, .tagComputed),
   (.defaultT, .tagTransparent),
   (.timestampAdapterT, .tagTimestamp),
   (.ifThenElseT, .tagIfThenElse),
   (.switchT, .tagSwitch),
   (.pointerT, .tagTransparent),
   (.peekT, .tagPeek),
   (.seekT, .tagSeek),
   (.tellT, .tagTell),
   (.passT, .tagPass),
   (.rawCopyT, .tagRawCopy),
   (.transformedT, .tagTransparent),
   (.restreamedT, .tagTransparent),
   (.tstructT, .tagTStruct),
   (.tbitstructT, .tagTBitStruct),
   (.tenumT, .tagTEnum),
   (.includeGuiMetaDataT, .tagTransparent)]

/-- Exact-type lookup `entry_mapping_construct[type(subcon)]` (dict keys
are unique, so the first hit is the only hit). -/
def mappingFind (t : TypeId) : Option CtorTag :=
  (entryMapping.find? (fun kv => kv.1 = t)).map (fun kv => kv.2)

/-- Application of a registered entry-class constructor to a grammar
node: each arm performs exactly what that class `__init__` stores, using
`createEntry` for the nested `create_entry_from_construct` calls.  Arms
that read shape-specific attributes (`subcons`, `subcon`, branch or case
tables) match the corresponding grammar shape; the `.base` default of
those arms is unreachable under the dispatch, which only selects a
constructor whose key type the node is an instance of. -/
def applyCtorTag : CtorTag → Construct → Entry
  | .tagBytes, c => .ebytes c
  | .tagFormatField, c =>
    match c with
    | .formatFieldC f => .eformatField (.formatFieldC f) (ffTypeInfos f)
    | other => .base other
  | .tagBytesInteger, c => .ebytesInteger c
  | .tagBitsInteger, c => .ebitsInteger c
  | .tagEnum, c =>
    match c with
    | .enumC sub => .eenum (.enumC sub) (createEntry sub)
    | other => .base other
  | .tagFlagsEnum, c =>
    match c with
    | .flagsEnumC sub => .eflagsEnum (.flagsEnumC sub) (createEntry sub)
    | other => .base other
  | .tagStruct, c =>
    match c with
    | .structC subs => .estruct (.structC subs) (createEntryList subs)
    | other => .base other
  | .tagArray, c =>
    match c with
    | .arrayC cnt sub => .earray (.arrayC cnt sub) (createEntry sub) []
    | other => .base other
  | .tagGreedyRange, c =>
    match c with
    | .greedyRangeC sub => .egreedyRange (.greedyRangeC sub) (createEntry sub) []
    | other => .base other
  | .tagRenamed, c =>
    match c with
    | .renamedC n sub =>
      .erenamed (.renamedC n sub) (decide (n = sub.nameOf)) (createEntry sub)
    | other => .base other
  | .tagTransparent, c =>
    match c with
    | .constC sub => .etransparent (.constC sub) (createEntry sub)
    | .defaultC sub => .etransparent (.defaultC sub) (createEntry sub)
    | .pointerC sub => .etransparent (.pointerC sub) (createEntry sub)
    | .transformedC sub => .etransparent (.transformedC sub) (createEntry sub)
    | .restreamedC sub => .etransparent (.restreamedC sub) (createEntry sub)
    | .includeMetaC sub => .etransparent (.includeMetaC sub) (createEntry sub)
    | other => .base other
  | .tagComputed, c => .ecomputed c
  | .tagTimestamp, c =>
    match c with
    | .timestampC sub => .etimestamp (.timestampC sub) (createEntry sub)
    | other => .base other
  | .tagIfThenElse, c =>
    match c with
    | .ifThenElseC cf t e =>
      .eifThenElse (.ifThenElseC cf t e)
        (.erenamed (.renamedC (some ("If " ++ condFuncRepr cf ++ " then")) t) true
          (createEntry t))
        (.erenamed (.renamedC (some "Else") e) true (createEntry e))
    | other => .base other
  | .tagSwitch, c =>
    match c with
    | .switchC kf cases dflt =>
      .eswitch (.switchC kf cases dflt) (createEntryCases kf cases)
        (match dflt with
         | some d =>
           some (.erenamed (.renamedC (some "Default") d) true (createEntry d))
         | none => none)
    | other => .base other
  | .tagPeek, c =>
    match c with
    | .peekC sub => .epeek (.peekC sub) (createEntry sub)
    | other => .base other
  | .tagSeek, c => .eseek c
  | .tagTell, c => .etell c
  | .tagPass, c => .epassE c
  | .tagRawCopy, c =>
    match c with
    | .rawCopyC sub => .erawCopy (.rawCopyC sub) (createEntry sub)
    | other => .base other
  | .tagTStruct, c =>
    match c with
    | .tstructC rev sub => .etstruct (.tstructC rev sub) (createEntry sub)
    | other => .base other
  | .tagTBitStruct, c =>
    match c with
    | .tbitstructC rev sub => .etbitstruct (.tbitstructC rev sub) (createEntry sub)
    | other => .base other
  | .tagTEnum, c =>
    match c with
    | .tenumC sub => .etenum (.tenumC sub) (createEntry sub)
    | other => .base other

/-- `create_entry_from_construct` (wrapper.py:1493-1510): exact
runtime-type lookup first; otherwise the first registered key the node
is an instance of, in registration order; otherwise the generic
`EntryConstruct` when the node is at least a `cs.Construct`; otherwise
`raise ValueError`.  A non-construct input can never hit the first three
branches (every registered key and the fallback test are construct
types), so it reaches the `raise`. -/
def createEntryFromConstruct (a : PyAny) : Except PyErr Entry :=
  match a with
  | .con c =>
    match mappingFind c.typeOf with
    | some tag => .ok (applyCtorTag tag c)
    | none =>
      match entryMapping.find? (fun kv => c.typeOf.subclassOf kv.1) with
      | some kv => .ok (applyCtorTag kv.2 c)
      | none =>
        if c.typeOf.subclassOf .constructT then .ok (.base c)
        else .error .valueError
  | .nonConstruct _ => .error .valueError

/-- C5 confirmed: the factory lookup proceeds in order — (1) exact
runtime-type hit in the registry; (2) otherwise the first registered key
(in registration order, per `List.find?`) the node is an instance of;
(3) otherwise the generic `EntryConstruct` when the node is a valid
grammar construct; (4) otherwise the unsupported-node error
(`raise ValueError` in the source).  The last conjunct ties the dispatch
to the structural entry builder used everywhere else: on every grammar
node the dispatch succeeds and produces exactly `createEntry`. -/
theorem C5_factory_lookup_order :
    (∀ (c : Construct) (tag : CtorTag),
        mappingFind c.typeOf = some tag →
        createEntryFromConstruct (.con c) = .ok (applyCtorTag tag c)) ∧
    (∀ (c : Construct) (k : TypeId) (tag : CtorTag),
        mappingFind c.typeOf = none →
        entryMapping.find? (fun kv => c.typeOf.subclassOf kv.1) = some (k, tag) →
        createEntryFromConstruct (.con c) = .ok (applyCtorTag tag c)) ∧
    (∀ c : Construct,
        mappingFind c.typeOf = none →
        entryMapping.find? (fun kv => c.typeOf.subclassOf kv.1) = none →
        c.typeOf.subclassOf .constructT = true →
        createEntryFromConstruct (.con c) = .ok (.base c)) ∧
    (∀ a : PyAny,
        mappingFind a.typeOf = none →
        entryMapping.find? (fun kv => a.typeOf.subclassOf kv.1) = none →
        a.typeOf.subclassOf .constructT = false →
        createEntryFromConstruct a = .error .valueError) ∧
    (∀ c : Construct, createEntryFromConstruct (.con c) = .ok (createEntry c)) := by
  refine ⟨?_, ?_, ?_, ?_, ?_⟩
  · intro c tag h
    simp [createEntryFromConstruct, h]
  · intro c k tag h hf
    simp [createEntryFromConstruct, h, hf]
  · intro c h hf hc
    simp [createEntryFromConstruct, h, hf, hc]
  · intro a h hf hc
    match a with
    | .con c =>
      simp only [PyAny.typeOf] at h hf hc
      simp [createEntryFromConstruct, h, hf, hc]
    | .nonConstruct ty => simp [createEntryFromConstruct]
  · intro c
    cases c
    case switchC kf cs dflt =>
      cases dflt <;>
        simp [createEntryFromConstruct, mappingFind, entryMapping, applyCtorTag,
          Construct.typeOf, createEntry]
    all_goals
      simp [createEntryFromConstruct, mappingFind, entryMapping, applyCtorTag,
        Construct.typeOf, createEntry, List.find?, TypeId.subclassOf]

/-- Witness for `C5_factory_lookup_order`, exercising all four branches:
an exact hit (a struct), an instance-of hit (an unregistered subclass of
`cs.Bytes` dispatching to `EntryBytes`), the generic fallback (an
unregistered plain construct), and the unsupported-input error (a
non-construct object). -/
theorem C5_factory_lookup_order_witness :
    createEntryFromConstruct (.con (.structC []))
      = .ok (applyCtorTag .tagStruct (.structC [])) ∧
    createEntryFromConstruct (.con (.bytesSubC (.lit 4)))
      = .ok (applyCtorTag .tagBytes (.bytesSubC (.lit 4))) ∧
    createEntryFromConstruct (.con .paddedC) = .ok (.base .paddedC) ∧
    createEntryFromConstruct (.nonConstruct .intTypeT) = .error .valueError := by
  refine ⟨?_, ?_, ?_, ?_⟩
  · exact C5_factory_lookup_order.1 (.structC []) .tagStruct rfl
  · exact C5_factory_lookup_order.2.1 (.bytesSubC (.lit 4)) .bytesT .tagBytes rfl rfl
  · exact C5_factory_lookup_order.2.2.1 .paddedC rfl rfl rfl
  · exact C5_factory_lookup_order.2.2.2.1 (.nonConstruct .intTypeT) rfl rfl rfl

/-- Python `len(obj)` for the modelled values; `none` stands for the
`TypeError` of unsized values (absorbed by the callers' `try`). -/
def pyLen : PVal → Option Nat
  | .mk _ (.dictV kvs) => some kvs.length
  | .mk _ (.listV xs) => some xs.length
  | .mk _ (.strV s) => some s.length
  | _ => none

/-- The `array_len` computation at the head of `EntryArray.subentries`
(wrapper.py:625-632): `len(self.obj)`, with any failure (unreadable
path or un-sized live value) falling back to the declared count when
`isinstance(count, int)`, else to 1. -/
def arrayLen (root : PVal) (apath : List String) (count : CountSpec) : Int :=
  match readPath root apath with
  | .ok v =>
    match pyLen v with
    | some n => (n : Int)
    | none =>
      match count with
      | .lit m => m
      | .dyn _ => 1
  | .error _ =>
    match count with
    | .lit m => m
    | .dyn _ => 1

/-- `EntryArray.insert_entry` (wrapper.py:642-648) applied for indices
`0 … n-1`: each child is the entry for
`cs.Renamed(subcon, newname=str(index))`. -/
def arrayFreshChildren (sub : Construct) (n : Nat) : List Entry :=
  (List.range n).map (fun i => createEntry (.renamedC (some (toString i)) sub))

/-- One access to `EntryArray.subentries` (wrapper.py:623-640) as a
state transition on the `_subentries` cache: compute the live length
(with its static fallbacks), and exactly when the cached child count
differs, clear the cache and rebuild one child per index.  The returned
list is also the new cache (`self._subentries` is returned). -/
def arraySubentriesAccess (root : PVal) (apath : List String) (count : CountSpec)
    (sub : Construct) (cache : List Entry) : List Entry :=
  let len := arrayLen root apath count
  if (cache.length : Int) = len then cache
  else arrayFreshChildren sub len.toNat

/-- The name of a rebuilt array child is its numeric index. -/
theorem arrayChild_name (s : String) (sub : Construct) :
    (createEntry (.renamedC (some s) sub)).name = s := by
  simp [createEntry, Entry.name, Entry.constructOf, Construct.nameOf]

/-- C4 confirmed (with the declared fallback count read as a genuine
count, i.e. non-negative): the child count equals the live length when
readable, else the declared literal count, else 1; the cache is
discarded and rebuilt exactly when the live length differs from the
cached count; rebuilt children are named `"0" … "N-1"`; and after the
live list is replaced by one of length M the next access returns exactly
M children. -/
theorem C4_array_subentries :
    (∀ (root : PVal) (apath : List String) (count : CountSpec) (sub : Construct)
        (cache : List Entry) (v : PVal) (n : Nat),
        readPath root apath = .ok v → pyLen v = some n →
        (arraySubentriesAccess root apath count sub cache).length = n) ∧
    (∀ (root : PVal) (apath : List String) (m : Int) (sub : Construct)
        (cache : List Entry) (v : PVal),
        readPath root apath = .ok v → pyLen v = none → 0 ≤ m →
        ((arraySubentriesAccess root apath (.lit m) sub cache).length : Int) = m) ∧
    (∀ (root : PVal) (apath : List String) (r : String) (sub : Construct)
        (cache : List Entry) (v : PVal),
        readPath root apath = .ok v → pyLen v = none →
        (arraySubentriesAccess root apath (.dyn r) sub cache).length = 1) ∧
    (∀ (root : PVal) (apath : List String) (count : CountSpec) (sub : Construct)
        (cache : List Entry),
        ((cache.length : Int) = arrayLen root apath count →
          arraySubentriesAccess root apath count sub cache = cache) ∧
        ((cache.length : Int) ≠ arrayLen root apath count →
          arraySubentriesAccess root apath count sub cache
            = arrayFreshChildren sub (arrayLen root apath count).toNat)) ∧
    (∀ (root : PVal) (apath : List String) (count : CountSpec) (sub : Construct)
        (k : Nat),
        (arraySubentriesAccess root apath count sub
            (arrayFreshChildren sub k)).map Entry.name
          = (List.range (arrayLen root apath count).toNat).map toString) ∧
    (∀ (root1 root2 : PVal) (apath : List String) (count : CountSpec)
        (sub : Construct) (cache : List Entry) (v2 : PVal) (M : Nat),
        readPath root2 apath = .ok v2 → pyLen v2 = some M →
        (arraySubentriesAccess root2 apath count sub
            (arraySubentriesAccess root1 apath count sub cache)).length = M) := by
  have hfresh : ∀ (sub : Construct) (n : Nat),
      (arrayFreshChildren sub n).length = n := by
    intro sub n
    simp [arrayFreshChildren]
  have hlen : ∀ (root : PVal) (apath : List String) (count : CountSpec)
      (sub : Construct) (cache : List Entry),
      ((arraySubentriesAccess root apath count sub cache).length : Int)
        = if 0 ≤ arrayLen root apath count then arrayLen root apath count else 0 := by
    intro root apath count sub cache
    by_cases h : (cache.length : Int) = arrayLen root apath count
    · simp [arraySubentriesAccess, h]
      omega
    · simp [arraySubentriesAccess, h, hfresh]
      omega
  refine ⟨?_, ?_, ?_, ?_, ?_, ?_⟩
  · intro root apath count sub cache v n hr hl
    have harr : arrayLen root apath count = (n : Int) := by
      simp [arrayLen, hr, hl]
    have h := hlen root apath count sub cache
    rw [harr] at h
    simp at h
    omega
  · intro root apath m sub cache v hr hl hm
    have harr : arrayLen root apath (.lit m) = m := by
      simp [arrayLen, hr, hl]
    have h := hlen root apath (.lit m) sub cache
    rw [harr] at h
    simp [hm] at h
    omega
  · intro root apath r sub cache v hr hl
    have harr : arrayLen root apath (.dyn r) = 1 := by
      simp [arrayLen, hr, hl]
    have h := hlen root apath (.dyn r) sub cache
    rw [harr] at h
    simp at h
    omega
  · intro root apath count sub cache
    constructor
    · intro h
      simp [arraySubentriesAccess, h]
    · intro h
      simp [arraySubentriesAccess, h]
  · intro root apath count sub k
    by_cases h : (k : Int) = arrayLen root apath count
    · have hk : k = (arrayLen root apath count).toNat := by omega
      simp [arraySubentriesAccess, hfresh, h, arrayFreshChildren, hk]
      intro i _hi
      exact arrayChild_name (toString i) sub
    · simp [arraySubentriesAccess, hfresh, h, arrayFreshChildren]
      intro i _hi
      exact arrayChild_name (toString i) sub
  · intro root1 root2 apath count sub cache v2 M hr hl
    have harr : arrayLen root2 apath count = (M : Int) := by
      simp [arrayLen, hr, hl]
    have h := hlen root2 apath count sub
      (arraySubentriesAccess root1 apath count sub cache)
    rw [harr] at h
    simp at h
    omega

/-- Witness for `C4_array_subentries`: an array entry sitting at the
root path over a live list of length 3 yields three children named
`"0" "1" "2"` from an empty cache; after the live list shrinks to
length 2, the next access yields exactly 2 children. -/
theorem C4_array_subentries_witness :
    (arraySubentriesAccess
        (.mk none (.listV [leafFive, leafFive, leafFive])) [] (.lit 5)
        (.formatFieldC ">B") []).length = 3 ∧
    (arraySubentriesAccess
        (.mk none (.listV [leafFive, leafFive, leafFive])) [] (.lit 5)
        (.formatFieldC ">B") (arrayFreshChildren (.formatFieldC ">B") 3)).map
        Entry.name = ["0", "1", "2"] ∧
    (arraySubentriesAccess (.mk none (.listV [leafFive, leafFive])) [] (.lit 5)
        (.formatFieldC ">B")
        (arraySubentriesAccess
          (.mk none (.listV [leafFive, leafFive, leafFive])) [] (.lit 5)
          (.formatFieldC ">B") [])).length = 2 := by
  refine ⟨?_, ?_, ?_⟩
  · exact C4_array_subentries.1 (.mk none (.listV [leafFive, leafFive, leafFive]))
      [] (.lit 5) (.formatFieldC ">B") []
      (.mk none (.listV [leafFive, leafFive, leafFive])) 3 rfl rfl
  · have h := C4_array_subentries.2.2.2.2.1
      (.mk none (.listV [leafFive, leafFive, leafFive])) [] (.lit 5)
      (.formatFieldC ">B") 3
    simpa [arrayLen, readPath, pyLen] using h
  · exact C4_array_subentries.2.2.2.2.2
      (.mk none (.listV [leafFive, leafFive, leafFive]))
      (.mk none (.listV [leafFive, leafFive])) [] (.lit 5) (.formatFieldC ">B") []
      (.mk none (.listV [leafFive, leafFive])) 2 rfl rfl

/-- Modelled from the spec: the metadata side channel
`lookupContext(value) -> context | absent` (`get_gui_metadata` of
`construct_editor…preprocessor`, whose source is not part of the
provided files).  The `GuiMetaData` record is collapsed to its `context`
member, the only one the modelled code reads. -/
def getGuiMetadata (v : PVal) : Option Ctx := v.meta

/-- Modelled from the spec: `attachContext(value, context) -> value'`
(`add_gui_metadata`): the same value now carrying the metadata (the real
implementation wraps the value in a subclass holding the record, so the
underlying value is unchanged). -/
def addGuiMetadata (v : PVal) (m : Ctx) : PVal := .mk (some m) v.core

/-- One uppercase hexadecimal digit. -/
def hexDigit (d : Nat) : String :=
  match d with
  | 0 => "0" | 1 => "1" | 2 => "2" | 3 => "3" | 4 => "4"
  | 5 => "5" | 6 => "6" | 7 => "7" | 8 => "8" | 9 => "9"
  | 10 => "A" | 11 => "B" | 12 => "C" | 13 => "D" | 14 => "E"
  | _ => "F"

/-- Uppercase hexadecimal rendering of a positive number (Python
`f"{n:X}"`; only reached for values of at least 10). -/
def natHex (n : Nat) : String :=
  if n = 0 then ""
  else natHex (n / 16) ++ hexDigit (n % 16)
decreasing_by exact Nat.div_lt_self (by omega) (by omega)

mutual

/-- Python `repr` for the modelled values, as used when containers are
rendered.  String quoting is rendered with double quotes (CPython
prefers single quotes; no claim observes the quoting style). -/
def pyRepr : PVal → String
  | .mk _ .noneV => "None"
  | .mk _ (.intV n) => toString n
  | .mk _ (.boolV b) => if b then "True" else "False"
  | .mk _ (.strV s) => "\"" ++ s ++ "\""
  | .mk _ (.dictV kvs) => "\x7b" ++ pyReprKVs kvs ++ "\x7d"
  | .mk _ (.listV xs) => "[" ++ pyReprList xs ++ "]"

def pyReprKVs : List (String × PVal) → String
  | [] => ""
  | [(k, v)] => "\"" ++ k ++ "\": " ++ pyRepr v
  | (k, v) :: rest => "\"" ++ k ++ "\": " ++ pyRepr v ++ ", " ++ pyReprKVs rest

def pyReprList : List PVal → String
  | [] => ""
  | [v] => pyRepr v
  | v :: rest => pyRepr v ++ ", " ++ pyReprList rest

end

/-- Python `str` for the modelled values: a string stands for itself,
everything else renders like `repr`. -/
def pyStr : PVal → String
  | .mk _ (.strV s) => s
  | other => pyRepr other

/-- Python `int(x)` on a value: ints stand for themselves, booleans for
0/1, digit strings are parsed; anything else raises (here `none`,
absorbed by the callers' `try`). -/
def pyToInt : PVal → Option Int
  | .mk _ (.intV n) => some n
  | .mk _ (.boolV b) => some (if b then 1 else 0)
  | .mk _ (.strV s) => pyParseInt s
  | _ => none

/-- `int_to_str` (wrapper.py:23-29): strings are tolerated and returned
unchanged; values below 10 render decimal only, larger ones decimal and
a parenthesised-by-slashes hex form.  Values supporting neither the
string test nor the `< 10` comparison raise `TypeError`. -/
def intToStr (val : PVal) : Except PyErr String :=
  match val with
  | .mk _ (.strV s) => .ok s
  | .mk _ (.intV n) =>
    if n < 10 then .ok (toString n)
    else .ok (toString n ++ "   /   0x" ++ natHex n.toNat)
  | .mk _ (.boolV b) => .ok (if b then "True" else "False")
  | _ => .error .typeError

/-- `repr(construct)`, the default `typ_str`.  The concrete text of the
`construct` library's reprs is not reproduced (no claim observes it);
the rendering only distinguishes the grammar-node kind. -/
def creprC (c : Construct) : String :=
  match c.typeOf with
  | .bytesT => "<Bytes>"
  | .formatFieldT => "<FormatField>"
  | .bytesIntegerT => "<BytesInteger>"
  | .bitsIntegerT => "<BitsInteger>"
  | .enumT => "<Enum>"
  | .flagsEnumT => "<FlagsEnum>"
  | .structT => "<Struct>"
  | .arrayT => "<Array>"
  | .greedyRangeT => "<GreedyRange>"
  | .renamedT => "<Renamed>"
  | .constT => "<Const>"
  | .computedT => "<Computed>"
  | .defaultT => "<Default>"
  | .timestampAdapterT => "<TimestampAdapter>"
  | .ifThenElseT => "<IfThenElse>"
  | .switchT => "<Switch>"
  | .pointerT => "<Pointer>"
  | .peekT => "<Peek>"
  | .seekT => "<Seek>"
  | .tellT => "<Tell>"
  | .passT => "<Pass>"
  | .rawCopyT => "<RawCopy>"
  | .transformedT => "<Transformed>"
  | .restreamedT => "<Restreamed>"
  | .tstructT => "<TStruct>"
  | .tbitstructT => "<TBitStruct>"
  | .tenumT => "<TEnum>"
  | .includeGuiMetaDataT => "<IncludeGuiMetaData>"
  | _ => "<Construct>"

/-- The `" | "`-joined truthy, non-protected flag names of a flag-set
dict (`EntryFlagsEnum.obj_str`, wrapper.py:1339-1351). -/
def flagsJoin (kvs : List (String × PVal)) : String :=
  String.intercalate " | "
    ((kvs.filter (fun kv => !kv.1.startsWith "_" && pyTruthy kv.2)).map
      (fun kv => kv.1))

/-- `EntryIfThenElse._get_subentry` (wrapper.py:773-784) up to branch
selection: read the live value (errors propagate); `None` means no
active branch; otherwise the condition is evaluated against the context
recovered from the attached metadata — when no metadata is attached,
`metadata.context` raises `AttributeError`.  `some true` selects the
then branch, `some false` the else branch. -/
def ifActiveBranch (root : PVal) (epath : List String) (c : Construct) :
    Except PyErr (Option Bool) :=
  match readPath root epath with
  | .error er => .error er
  | .ok obj =>
    if obj.isNone then .ok none
    else
      match c with
      | .ifThenElseC cf _ _ =>
        match getGuiMetadata obj with
        | none => .error .attributeError
        | some ctx =>
          match condEvaluate cf ctx with
          | .error er => .error er
          | .ok cond => .ok (some (pyTruthy cond))
      | _ => .error .attributeError

/-- `EntrySwitch._get_subentry` (wrapper.py:855-866) up to the key
lookup: read the live value (errors propagate); `None` means no active
branch; otherwise the key function is evaluated against the recovered
context (missing metadata again raises `AttributeError`). -/
def switchKeyEval (root : PVal) (epath : List String) (c : Construct) :
    Except PyErr (Option PVal) :=
  match readPath root epath with
  | .error er => .error er
  | .ok obj =>
    if obj.isNone then .ok none
    else
      match c with
      | .switchC kf _ _ =>
        match getGuiMetadata obj with
        | none => .error .attributeError
        | some ctx =>
          match keyEvaluate kf ctx with
          | .error er => .error er
          | .ok key => .ok (some key)
      | _ => .error .attributeError

/-- First-match lookup in the switch's `_subentry_cases` dict. -/
def lookupCaseEntry : List (String × Entry) → String → Option Entry
  | [], _ => none
  | (k, ce) :: rest, key => if k = key then some ce else lookupCaseEntry rest key

/-- `key in self._subentry_cases` followed by indexing: the evaluated
key equals a `str` dict key only when it is itself a string with the
same characters (metadata wrappers compare by value). -/
def lookupByKey (cases : List (String × Entry)) (key : PVal) : Option Entry :=
  match key with
  | .mk _ (.strV s) => lookupCaseEntry cases s
  | _ => none

theorem lookupCaseEntry_sizeOf (cases : List (String × Entry)) (s : String)
    (ce : Entry) (h : lookupCaseEntry cases s = some ce) :
    sizeOf ce < sizeOf cases := by
  induction cases with
  | nil => simp [lookupCaseEntry] at h
  | cons kv rest ih =>
    obtain ⟨k, v⟩ := kv
    by_cases hk : k = s
    · simp [lookupCaseEntry, hk] at h
      subst h
      simp
      omega
    · simp [lookupCaseEntry, hk] at h
      have := ih h
      simp
      omega

theorem lookupByKey_sizeOf (cases : List (String × Entry)) (key : PVal)
    (ce : Entry) (h : lookupByKey cases key = some ce) :
    sizeOf ce < sizeOf cases := by
  match key with
  | .mk m (.strV s) => exact lookupCaseEntry_sizeOf cases s ce h
  | .mk m .noneV | .mk m (.intV _) | .mk m (.boolV _) | .mk m (.dictV _)
  | .mk m (.listV _) => simp [lookupByKey] at h

/-- `EntrySwitch._subentries`: one renamed case entry per case, in case
order, then the default entry when present (each child's parent is the
switch entry itself). -/
def switchStaticSubs (anc : List Entry) (e : Entry)
    (cases : List (String × Entry)) (dflt : Option Entry) :
    List (List Entry × Entry) :=
  (cases.map (fun kv => (e :: anc, kv.2))) ++
    (match dflt with
     | some d => [(e :: anc, d)]
     | none => [])

/-- The static `except`-branch of `EntryBytes.typ_str`
(wrapper.py:1072-1078): `Byte[<declared length>]`; a grammar node
without a `length` field would raise `AttributeError` there. -/
def bytesStaticTyp (c : Construct) : Except PyErr String :=
  match c with
  | .bytesC len => .ok ("Byte[" ++ countRepr len ++ "]")
  | .bytesSubC len => .ok ("Byte[" ++ countRepr len ++ "]")
  | _ => .error .attributeError

/-- The static `except`-branch of `EntryArray.typ_str`
(wrapper.py:651-655): `Array[<declared count>]`. -/
def arrayStaticTyp (c : Construct) : Except PyErr String :=
  match c with
  | .arrayC cnt _ => .ok ("Array[" ++ countRepr cnt ++ "]")
  | _ => .error .attributeError

mutual

/-- `typ_str` across the entry hierarchy, evaluated against the model's
root object with the entry's ancestor chain (`anc`, parent first) made
explicit.  Branches follow the per-class overrides of wrapper.py;
`EntrySubconstruct` descendants delegate to their wrapped entry, and the
conditional/switch variants delegate to the active branch resolved by
`_get_subentry` (whose exceptions propagate). -/
def entryTypStr (root : PVal) (anc : List Entry) (e : Entry) :
    Except PyErr String :=
  match e with
  | .base c => .ok (creprC c)
  | .ebytes c =>
    readPath root (pathRev (e :: anc)) |>.toOption |> (fun r =>
      match r with
      | some v =>
        match pyLen v with
        | some n => .ok ("Byte[" ++ toString n ++ "]")
        | none => bytesStaticTyp c
      | none => bytesStaticTyp c)
  | .eformatField c infos =>
    match infos with
    | some (label, _) => .ok label
    | none =>
      match c with
      | .formatFieldC f => .ok ("FormatField[\"" ++ f ++ "\"]")
      | _ => .error .attributeError
  | .ebytesInteger c =>
    match c with
    | .bytesIntegerC len sg sw =>
      if len = CountSpec.lit 3 then
        if sg = false then
          if sw = false then .ok "Int24ub" else .ok "Int24ul"
        else
          if sw = false then .ok "Int24sb" else .ok "Int24sl"
      else .ok (creprC c)
    | _ => .error .attributeError
  | .ebitsInteger c =>
    match c with
    | .bitsIntegerC len sg =>
      .ok ("BitsInteger[" ++ countRepr len ++ (if sg then ", signed" else "") ++ "]")
    | _ => .error .attributeError
  | .eenum _ sub =>
    (entryTypStr root (e :: anc) sub).map (fun s => s ++ " as Enum")
  | .eflagsEnum _ sub =>
    (entryTypStr root (e :: anc) sub).map (fun s => s ++ " as Flags")
  | .estruct _ _ => .ok "Struct"
  | .earray c _ _ =>
    readPath root (pathRev (e :: anc)) |>.toOption |> (fun r =>
      match r with
      | some v =>
        match pyLen v with
        | some n => .ok ("Array[" ++ toString n ++ "]")
        | none => arrayStaticTyp c
      | none => arrayStaticTyp c)
  | .egreedyRange _ _ _ =>
    readPath root (pathRev (e :: anc)) |>.toOption |> (fun r =>
      match r with
      | some v =>
        match pyLen v with
        | some n => .ok ("GreedyRange[" ++ toString n ++ "]")
        | none => .ok "GreedyRange"
      | none => .ok "GreedyRange")
  | .erenamed _ _ sub => entryTypStr root (e :: anc) sub
  | .etransparent _ sub => entryTypStr root (e :: anc) sub
  | .ecomputed _ => .ok "Computed"
  | .etimestamp _ sub => entryTypStr root (e :: anc) sub
  | .eifThenElse c subThen subElse =>
    ifActiveBranch root (pathRev (e :: anc)) c >>= fun br =>
      match br with
      | none => .ok "IfThenElse"
      | some true =>
        match subThen with
        | .erenamed cT exT sT => entryTypStr root (.erenamed cT exT sT :: e :: anc) sT
        | _ => .error .attributeError
      | some false =>
        match subElse with
        | .erenamed cE exE sE => entryTypStr root (.erenamed cE exE sE :: e :: anc) sE
        | _ => .error .attributeError
  | .eswitch c cases dflt =>
    switchKeyEval root (pathRev (e :: anc)) c >>= fun r =>
      match r with
      | none => .ok "Switch"
      | some (.mk _ (.strV s)) => typStrSwitchCases root (e :: anc) cases s dflt
      | some _ =>
        match dflt with
        | some d => entryTypStr root (e :: anc) d
        | none => .ok "Switch"
  | .epeek _ sub => entryTypStr root (e :: anc) sub
  | .eseek _ => .ok "Seek"
  | .etell _ => .ok "Tell"
  | .epassE _ => .ok "Pass"
  | .erawCopy _ sub => entryTypStr root (e :: anc) sub
  | .etstruct _ _ => .ok "TStruct"
  | .etbitstruct _ _ => .ok "TBitStruct"
  | .etenum _ sub =>
    (entryTypStr root (e :: anc) sub).map (fun s => s ++ " as Enum")
termination_by 2 * sizeOf e
decreasing_by all_goals simp_wf <;> omega

/-- The walk over `_subentry_cases` performed by `key in …`/indexing for
`typ_str`: the first case whose key equals the evaluated key delegates;
no match delegates to the default branch, or reports the static
`Switch`. -/
def typStrSwitchCases (root : PVal) (chain : List Entry)
    (cases : List (String × Entry)) (s : String) (dflt : Option Entry) :
    Except PyErr String :=
  match cases with
  | [] =>
    match dflt with
    | some d => entryTypStr root chain d
    | none => .ok "Switch"
  | (k, ce) :: rest =>
    if k = s then entryTypStr root chain ce
    else typStrSwitchCases root chain rest s dflt
termination_by 2 * (sizeOf cases + sizeOf dflt) + 1
decreasing_by all_goals simp_wf <;> omega

/-- `obj_str` across the entry hierarchy, same conventions as
`entryTypStr`.  Byte-string, timestamp and typed-enum runtime values are
not part of the value model, so their `isinstance`-guarded pretty
branches fall through to `str(obj)` exactly as the code does for any
other value; a `try` whose fallback re-reads `self.obj` re-raises a
failed read, which is why read errors propagate there too. -/
def entryObjStr (root : PVal) (anc : List Entry) (e : Entry) :
    Except PyErr String :=
  match e with
  | .base _ =>
    (readPath root (pathRev (e :: anc))).map pyStr
  | .ebytes _ =>
    (readPath root (pathRev (e :: anc))).map pyStr
  | .eformatField _ infos =>
    readPath root (pathRev (e :: anc)) >>= fun obj =>
      if obj.isNone then .ok (pyStr obj)
      else
        match infos with
        | some (_, FFKind.intK) => intToStr obj
        | some (_, FFKind.floatK) => .ok (pyStr obj)
        | none => .error .typeError
  | .ebytesInteger _ =>
    readPath root (pathRev (e :: anc)) >>= fun obj =>
      if obj.isNone then .ok (pyStr obj) else intToStr obj
  | .ebitsInteger _ =>
    readPath root (pathRev (e :: anc)) >>= fun obj =>
      if obj.isNone then .ok (pyStr obj) else intToStr obj
  | .eenum _ _ =>
    readPath root (pathRev (e :: anc)) >>= fun v =>
      match pyToInt v with
      | some n => .ok (toString n ++ " (" ++ pyStr v ++ ")")
      | none => .ok (pyStr v)
  | .eflagsEnum _ _ =>
    readPath root (pathRev (e :: anc)) >>= fun v =>
      match v with
      | .mk _ (.dictV kvs) => .ok (flagsJoin kvs)
      | _ => .ok (pyStr v)
  | .estruct _ _ => .ok ""
  | .earray _ _ _ => .ok ""
  | .egreedyRange _ _ _ => .ok ""
  | .erenamed _ _ sub => entryObjStr root (e :: anc) sub
  | .etransparent _ sub => entryObjStr root (e :: anc) sub
  | .ecomputed _ =>
    (readPath root (pathRev (e :: anc))).map pyStr
  | .etimestamp _ _ =>
    (readPath root (pathRev (e :: anc))).map pyStr
  | .eifThenElse c subThen subElse =>
    ifActiveBranch root (pathRev (e :: anc)) c >>= fun br =>
      match br with
      | none => .ok ""
      | some true =>
        match subThen with
        | .erenamed cT exT sT => entryObjStr root (.erenamed cT exT sT :: e :: anc) sT
        | _ => .error .attributeError
      | some false =>
        match subElse with
        | .erenamed cE exE sE => entryObjStr root (.erenamed cE exE sE :: e :: anc) sE
        | _ => .error .attributeError
  | .eswitch c cases dflt =>
    switchKeyEval root (pathRev (e :: anc)) c >>= fun r =>
      match r with
      | none => .ok ""
      | some (.mk _ (.strV s)) => objStrSwitchCases root (e :: anc) cases s dflt
      | some _ =>
        match dflt with
        | some d => entryObjStr root (e :: anc) d
        | none => .ok ""
  | .epeek _ sub => entryObjStr root (e :: anc) sub
  | .eseek _ => .ok ""
  | .etell _ =>
    (readPath root (pathRev (e :: anc))).map pyStr
  | .epassE _ => .ok ""
  | .erawCopy _ sub => entryObjStr root (e :: anc) sub
  | .etstruct _ sub => entryObjStr root (e :: anc) sub
  | .etbitstruct _ sub => entryObjStr root (e :: anc) sub
  | .etenum _ _ =>
    (readPath root (pathRev (e :: anc))).map pyStr
termination_by 2 * sizeOf e
decreasing_by all_goals simp_wf <;> omega

/-- The case walk of the switch key lookup for `obj_str`. -/
def objStrSwitchCases (root : PVal) (chain : List Entry)
    (cases : List (String × Entry)) (s : String) (dflt : Option Entry) :
    Except PyErr String :=
  match cases with
  | [] =>
    match dflt with
    | some d => entryObjStr root chain d
    | none => .ok ""
  | (k, ce) :: rest =>
    if k = s then entryObjStr root chain ce
    else objStrSwitchCases root chain rest s dflt
termination_by 2 * (sizeOf cases + sizeOf dflt) + 1
decreasing_by all_goals simp_wf <;> omega

/-- `subentries` across the entry hierarchy: `none` for leaves, a list
of children for containers, each child paired with its own ancestor
chain (children of a delegating wrapper belong to the wrapped entry, so
their chain passes through it).  Arrays rebuild through
`arraySubentriesAccess`; a greedy range behaves identically with the
"always 1" fallback (its `except` branch has no declared count). -/
def entrySubs (root : PVal) (anc : List Entry) (e : Entry) :
    Except PyErr (Option (List (List Entry × Entry))) :=
  match e with
  | .base _ => .ok none
  | .ebytes _ => .ok none
  | .eformatField _ _ => .ok none
  | .ebytesInteger _ => .ok none
  | .ebitsInteger _ => .ok none
  | .ecomputed _ => .ok none
  | .eseek _ => .ok none
  | .etell _ => .ok none
  | .epassE _ => .ok none
  | .estruct _ subs => .ok (some (subs.map (fun s => (e :: anc, s))))
  | .earray c _ cache =>
    match c with
    | .arrayC cnt sc =>
      .ok (some ((arraySubentriesAccess root (pathRev (e :: anc)) cnt sc cache).map
        (fun s => (e :: anc, s))))
    | _ => .error .attributeError
  | .egreedyRange c _ cache =>
    match c with
    | .greedyRangeC sc =>
      .ok (some ((arraySubentriesAccess root (pathRev (e :: anc)) (.dyn "") sc
        cache).map (fun s => (e :: anc, s))))
    | _ => .error .attributeError
  | .eenum _ sub => entrySubs root (e :: anc) sub
  | .eflagsEnum _ sub => entrySubs root (e :: anc) sub
  | .erenamed _ _ sub => entrySubs root (e :: anc) sub
  | .etransparent _ sub => entrySubs root (e :: anc) sub
  | .etimestamp _ sub => entrySubs root (e :: anc) sub
  | .epeek _ sub => entrySubs root (e :: anc) sub
  | .erawCopy _ sub => entrySubs root (e :: anc) sub
  | .etenum _ sub => entrySubs root (e :: anc) sub
  | .etstruct c sub =>
    entrySubs root (e :: anc) sub >>= fun l? =>
      match l? with
      | some l =>
        match c with
        | .tstructC rev _ => .ok (some (if rev then l.reverse else l))
        | _ => .error .attributeError
      | none => .ok none
  | .etbitstruct c sub =>
    entrySubs root (e :: anc) sub >>= fun l? =>
      match l? with
      | some l =>
        match c with
        | .tbitstructC rev _ => .ok (some (if rev then l.reverse else l))
        | _ => .error .attributeError
      | none => .ok none
  | .eifThenElse c subThen subElse =>
    ifActiveBranch root (pathRev (e :: anc)) c >>= fun br =>
      match br with
      | none => .ok (some [(e :: anc, subThen), (e :: anc, subElse)])
      | some true =>
        match subThen with
        | .erenamed cT exT sT => entrySubs root (.erenamed cT exT sT :: e :: anc) sT
        | _ => .error .attributeError
      | some false =>
        match subElse with
        | .erenamed cE exE sE => entrySubs root (.erenamed cE exE sE :: e :: anc) sE
        | _ => .error .attributeError
  | .eswitch c cases dflt =>
    switchKeyEval root (pathRev (e :: anc)) c >>= fun r =>
      match r with
      | none => .ok (some (switchStaticSubs anc e cases dflt))
      | some (.mk _ (.strV s)) =>
        subsSwitchCases root (e :: anc) cases s dflt
          (switchStaticSubs anc e cases dflt)
      | some _ =>
        match dflt with
        | some d => entrySubs root (e :: anc) d
        | none => .ok (some (switchStaticSubs anc e cases dflt))
termination_by 2 * sizeOf e
decreasing_by all_goals simp_wf <;> omega

/-- The case walk of the switch key lookup for `subentries`; `static`
is the precomputed `_subentries` fallback of the owning switch. -/
def subsSwitchCases (root : PVal) (chain : List Entry)
    (cases : List (String × Entry)) (s : String) (dflt : Option Entry)
    (static : List (List Entry × Entry)) :
    Except PyErr (Option (List (List Entry × Entry))) :=
  match cases with
  | [] =>
    match dflt with
    | some d => entrySubs root chain d
    | none => .ok (some static)
  | (k, ce) :: rest =>
    if k = s then entrySubs root chain ce
    else subsSwitchCases root chain rest s dflt static
termination_by 2 * (sizeOf cases + sizeOf dflt) + 1
decreasing_by all_goals simp_wf <;> omega

end

@[simp]
theorem except_bind_ok {e : Type} {a b : Type} (x : a) (f : a → Except e b) :
    (Except.ok x >>= f : Except e b) = f x := rfl

@[simp]
theorem except_bind_error {e : Type} {a b : Type} (er : e) (f : a → Except e b) :
    ((Except.error er : Except e a) >>= f : Except e b) = Except.error er := rfl

/-- A key matching no case of a defaultless switch falls back to the
static `typ_str`. -/
theorem typStrSwitchCases_notFound (root : PVal) (chain : List Entry)
    (cases : List (String × Entry)) (s : String)
    (h : lookupCaseEntry cases s = none) :
    typStrSwitchCases root chain cases s none = .ok "Switch" := by
  induction cases with
  | nil => rw [typStrSwitchCases.eq_def]
  | cons kv rest ih =>
    obtain ⟨k, ce⟩ := kv
    by_cases hk : k = s
    · simp [lookupCaseEntry, hk] at h
    · simp [lookupCaseEntry, hk] at h
      rw [typStrSwitchCases.eq_def]
      simp only [hk, if_false]
      exact ih h

/-- A key matching no case of a defaultless switch falls back to the
static `_subentries`. -/
theorem subsSwitchCases_notFound (root : PVal) (chain : List Entry)
    (cases : List (String × Entry)) (s : String)
    (static : List (List Entry × Entry))
    (h : lookupCaseEntry cases s = none) :
    subsSwitchCases root chain cases s none static = .ok (some static) := by
  induction cases with
  | nil => rw [subsSwitchCases.eq_def]
  | cons kv rest ih =>
    obtain ⟨k, ce⟩ := kv
    by_cases hk : k = s
    · simp [lookupCaseEntry, hk] at h
    · simp [lookupCaseEntry, hk] at h
      rw [subsSwitchCases.eq_def]
      simp only [hk, if_false]
      exact ih h

/-- Demonstration conditional grammar node: `IfThenElse(True, Int8ub-like,
Int8ub-like)`. -/
def demoIfC : Construct :=
  .ifThenElseC (.constB true) (.formatFieldC ">B") (.formatFieldC ">B")

/-- Demonstration switch grammar node with one case and no default. -/
def demoSwitchC : Construct :=
  .switchC (.constK "a") [("a", .formatFieldC ">B")] none

/-- C2 counterexample: a conditional (and a switch) whose live value is
present (`5`) but carries no attached metadata.  The claim says any
failure during predicate/key evaluation — including missing attached
metadata — is absorbed with the static fallback, so `typ_str`,
`obj_str` and `subentries` never raise; in the code
`metadata.context` on the `None` returned by `get_gui_metadata` raises
`AttributeError`, which propagates out of all three accessors. -/
theorem C2_branch_eval_raises_counterexample :
    entryTypStr leafFive [] (createEntry demoIfC) = .error .attributeError ∧
    entryObjStr leafFive [] (createEntry demoIfC) = .error .attributeError ∧
    entrySubs leafFive [] (createEntry demoIfC) = .error .attributeError ∧
    entryTypStr leafFive [] (createEntry demoSwitchC) = .error .attributeError := by
  refine ⟨?_, ?_, ?_, ?_⟩
  · simp [demoIfC, createEntry, entryTypStr, ifActiveBranch, pathRev, readPath,
      leafFive, PVal.isNone, getGuiMetadata, PVal.meta, Entry.excludedFromPath]
  · simp [demoIfC, createEntry, entryObjStr, ifActiveBranch, pathRev, readPath,
      leafFive, PVal.isNone, getGuiMetadata, PVal.meta, Entry.excludedFromPath]
  · simp [demoIfC, createEntry, entrySubs, ifActiveBranch, pathRev, readPath,
      leafFive, PVal.isNone, getGuiMetadata, PVal.meta, Entry.excludedFromPath]
  · simp [demoSwitchC, createEntry, entryTypStr, switchKeyEval, pathRev, readPath,
      leafFive, PVal.isNone, getGuiMetadata, PVal.meta, Entry.excludedFromPath,
      createEntryCases]

/-- C2 amended: for conditionals and switches, only an absent (`None`)
live value — or, for a switch, a key matching no case with no default —
reports no active branch with the static fallback; a present live value
without attached metadata makes `typ_str`, `obj_str` and `subentries`
raise `AttributeError`; a failing read of the live value propagates its
error; and with metadata present the accessors delegate to the branch
selected by the predicate/key. -/
theorem C2_branch_eval_amended :
    (∀ (root : PVal) (anc : List Entry) (c : Construct) (sT sE : Entry) (v : PVal),
        readPath root (pathRev (.eifThenElse c sT sE :: anc)) = .ok v →
        v.isNone = true →
        entryTypStr root anc (.eifThenElse c sT sE) = .ok "IfThenElse" ∧
        entryObjStr root anc (.eifThenElse c sT sE) = .ok "" ∧
        entrySubs root anc (.eifThenElse c sT sE)
          = .ok (some [(.eifThenElse c sT sE :: anc, sT),
                       (.eifThenElse c sT sE :: anc, sE)])) ∧
    (∀ (root : PVal) (anc : List Entry) (cf : CondFunc) (tC eC : Construct)
        (sT sE : Entry) (v : PVal),
        readPath root (pathRev (.eifThenElse (.ifThenElseC cf tC eC) sT sE :: anc))
          = .ok v →
        v.isNone = false → getGuiMetadata v = none →
        entryTypStr root anc (.eifThenElse (.ifThenElseC cf tC eC) sT sE)
          = .error .attributeError ∧
        entryObjStr root anc (.eifThenElse (.ifThenElseC cf tC eC) sT sE)
          = .error .attributeError ∧
        entrySubs root anc (.eifThenElse (.ifThenElseC cf tC eC) sT sE)
          = .error .attributeError) ∧
    (∀ (root : PVal) (anc : List Entry) (c : Construct) (sT sE : Entry) (er : PyErr),
        readPath root (pathRev (.eifThenElse c sT sE :: anc)) = .error er →
        entryTypStr root anc (.eifThenElse c sT sE) = .error er ∧
        entryObjStr root anc (.eifThenElse c sT sE) = .error er ∧
        entrySubs root anc (.eifThenElse c sT sE) = .error er) ∧
    (∀ (root : PVal) (anc : List Entry) (cf : CondFunc) (tC eC cT : Construct)
        (exT : Bool) (sTT : Entry) (sE : Entry) (v : PVal) (ctx : Ctx) (cond : PVal),
        readPath root
            (pathRev (.eifThenElse (.ifThenElseC cf tC eC)
              (.erenamed cT exT sTT) sE :: anc))
          = .ok v →
        v.isNone = false → getGuiMetadata v = some ctx →
        condEvaluate cf ctx = .ok cond → pyTruthy cond = true →
        entryTypStr root anc
            (.eifThenElse (.ifThenElseC cf tC eC) (.erenamed cT exT sTT) sE)
          = entryTypStr root
              (.erenamed cT exT sTT
                :: .eifThenElse (.ifThenElseC cf tC eC) (.erenamed cT exT sTT) sE
                :: anc) sTT) ∧
    (∀ (root : PVal) (anc : List Entry) (c : Construct)
        (cases : List (String × Entry)) (dflt : Option Entry) (v : PVal),
        readPath root (pathRev (.eswitch c cases dflt :: anc)) = .ok v →
        v.isNone = true →
        entryTypStr root anc (.eswitch c cases dflt) = .ok "Switch" ∧
        entryObjStr root anc (.eswitch c cases dflt) = .ok "" ∧
        entrySubs root anc (.eswitch c cases dflt)
          = .ok (some (switchStaticSubs anc (.eswitch c cases dflt) cases dflt))) ∧
    (∀ (root : PVal) (anc : List Entry) (kf : KeyFunc)
        (cs : List (String × Construct)) (dfltC : Option Construct)
        (cases : List (String × Entry)) (dflt : Option Entry) (v : PVal),
        readPath root
            (pathRev (.eswitch (.switchC kf cs dfltC) cases dflt :: anc)) = .ok v →
        v.isNone = false → getGuiMetadata v = none →
        entryTypStr root anc (.eswitch (.switchC kf cs dfltC) cases dflt)
          = .error .attributeError ∧
        entryObjStr root anc (.eswitch (.switchC kf cs dfltC) cases dflt)
          = .error .attributeError ∧
        entrySubs root anc (.eswitch (.switchC kf cs dfltC) cases dflt)
          = .error .attributeError) ∧
    (∀ (root : PVal) (anc : List Entry) (kf : KeyFunc)
        (cs : List (String × Construct)) (dfltC : Option Construct)
        (cases : List (String × Entry)) (dflt : Option Entry) (v : PVal)
        (ctx : Ctx) (key : PVal),
        readPath root
            (pathRev (.eswitch (.switchC kf cs dfltC) cases dflt :: anc)) = .ok v →
        v.isNone = false → getGuiMetadata v = some ctx →
        keyEvaluate kf ctx = .ok key → lookupByKey cases key = none → dflt = none →
        entryTypStr root anc (.eswitch (.switchC kf cs dfltC) cases dflt)
          = .ok "Switch" ∧
        entrySubs root anc (.eswitch (.switchC kf cs dfltC) cases dflt)
          = .ok (some (switchStaticSubs anc
              (.eswitch (.switchC kf cs dfltC) cases dflt) cases dflt))) := by
  refine ⟨?_, ?_, ?_, ?_, ?_, ?_, ?_⟩
  · intro root anc c sT sE v hr hn
    refine ⟨?_, ?_, ?_⟩
    · rw [entryTypStr.eq_def]; simp [ifActiveBranch, hr, hn]
    · rw [entryObjStr.eq_def]; simp [ifActiveBranch, hr, hn]
    · rw [entrySubs.eq_def]; simp [ifActiveBranch, hr, hn]
  · intro root anc cf tC eC sT sE v hr hn hm
    refine ⟨?_, ?_, ?_⟩
    · rw [entryTypStr.eq_def]; simp [ifActiveBranch, hr, hn, hm]
    · rw [entryObjStr.eq_def]; simp [ifActiveBranch, hr, hn, hm]
    · rw [entrySubs.eq_def]; simp [ifActiveBranch, hr, hn, hm]
  · intro root anc c sT sE er hr
    refine ⟨?_, ?_, ?_⟩
    · rw [entryTypStr.eq_def]; simp [ifActiveBranch, hr]
    · rw [entryObjStr.eq_def]; simp [ifActiveBranch, hr]
    · rw [entrySubs.eq_def]; simp [ifActiveBranch, hr]
  · intro root anc cf tC eC cT exT sTT sE v ctx cond hr hn hm hc ht
    rw [entryTypStr.eq_def]
    simp [ifActiveBranch, hr, hn, hm, hc, ht]
  · intro root anc c cases dflt v hr hn
    refine ⟨?_, ?_, ?_⟩
    · rw [entryTypStr.eq_def]; simp [switchKeyEval, hr, hn]
    · rw [entryObjStr.eq_def]; simp [switchKeyEval, hr, hn]
    · rw [entrySubs.eq_def]; simp [switchKeyEval, hr, hn]
  · intro root anc kf cs dfltC cases dflt v hr hn hm
    refine ⟨?_, ?_, ?_⟩
    · rw [entryTypStr.eq_def]; simp [switchKeyEval, hr, hn, hm]
    · rw [entryObjStr.eq_def]; simp [switchKeyEval, hr, hn, hm]
    · rw [entrySubs.eq_def]; simp [switchKeyEval, hr, hn, hm]
  · intro root anc kf cs dfltC cases dflt v ctx key hr hn hm hk hl hd
    subst hd
    match key, hl with
    | .mk m (.strV s), hl =>
      have hcl : lookupCaseEntry cases s = none := by simpa [lookupByKey] using hl
      constructor
      · rw [entryTypStr.eq_def]
        simp [switchKeyEval, hr, hn, hm, hk,
          typStrSwitchCases_notFound root _ cases s hcl]
      · rw [entrySubs.eq_def]
        simp [switchKeyEval, hr, hn, hm, hk,
          subsSwitchCases_notFound root _ cases s _ hcl]
    | .mk m .noneV, _ =>
      constructor
      · rw [entryTypStr.eq_def]; simp [switchKeyEval, hr, hn, hm, hk]
      · rw [entrySubs.eq_def]; simp [switchKeyEval, hr, hn, hm, hk]
    | .mk m (.intV n), _ =>
      constructor
      · rw [entryTypStr.eq_def]; simp [switchKeyEval, hr, hn, hm, hk]
      · rw [entrySubs.eq_def]; simp [switchKeyEval, hr, hn, hm, hk]
    | .mk m (.boolV b), _ =>
      constructor
      · rw [entryTypStr.eq_def]; simp [switchKeyEval, hr, hn, hm, hk]
      · rw [entrySubs.eq_def]; simp [switchKeyEval, hr, hn, hm, hk]
    | .mk m (.dictV kvs), _ =>
      constructor
      · rw [entryTypStr.eq_def]; simp [switchKeyEval, hr, hn, hm, hk]
      · rw [entrySubs.eq_def]; simp [switchKeyEval, hr, hn, hm, hk]
    | .mk m (.listV xs), _ =>
      constructor
      · rw [entryTypStr.eq_def]; simp [switchKeyEval, hr, hn, hm, hk]
      · rw [entrySubs.eq_def]; simp [switchKeyEval, hr, hn, hm, hk]

/-- Witness for `C2_branch_eval_amended`: with metadata attached to the
live value, the conditional delegates `typ_str` to its then branch
(`Int8ub`); with the live value `None` it reports the static
`IfThenElse`. -/
theorem C2_branch_eval_amended_witness :
    entryTypStr (.mk (some []) (.intV 5)) [] (createEntry demoIfC) = .ok "Int8ub" ∧
    entryTypStr (.mk none .noneV) [] (createEntry demoIfC) = .ok "IfThenElse" := by
  constructor
  · have h := C2_branch_eval_amended.2.2.2.1 (.mk (some []) (.intV 5)) []
      (.constB true) (.formatFieldC ">B") (.formatFieldC ">B")
      (.renamedC (some "If True then") (.formatFieldC ">B")) true
      (createEntry (.formatFieldC ">B"))
      (.erenamed (.renamedC (some "Else") (.formatFieldC ">B")) true
        (createEntry (.formatFieldC ">B")))
      (.mk (some []) (.intV 5)) [] (.mk none (.boolV true))
      (by simp [pathRev, Entry.excludedFromPath, readPath])
      rfl rfl rfl rfl
    have hc : createEntry demoIfC
        = .eifThenElse (.ifThenElseC (.constB true) (.formatFieldC ">B")
            (.formatFieldC ">B"))
          (.erenamed (.renamedC (some "If True then") (.formatFieldC ">B")) true
            (createEntry (.formatFieldC ">B")))
          (.erenamed (.renamedC (some "Else") (.formatFieldC ">B")) true
            (createEntry (.formatFieldC ">B"))) := by
      simp [demoIfC, createEntry, condFuncRepr]
    rw [hc, h]
    simp [createEntry, entryTypStr, ffTypeInfos]
  · have h := C2_branch_eval_amended.1 (.mk none .noneV) []
      (.ifThenElseC (.constB true) (.formatFieldC ">B") (.formatFieldC ">B"))
      (.erenamed (.renamedC (some "If True then") (.formatFieldC ">B")) true
        (createEntry (.formatFieldC ">B")))
      (.erenamed (.renamedC (some "Else") (.formatFieldC ">B")) true
        (createEntry (.formatFieldC ">B")))
      (.mk none .noneV)
      (by simp [pathRev, Entry.excludedFromPath, readPath])
      rfl
    have hc : createEntry demoIfC
        = .eifThenElse (.ifThenElseC (.constB true) (.formatFieldC ">B")
            (.formatFieldC ">B"))
          (.erenamed (.renamedC (some "If True then") (.formatFieldC ">B")) true
            (createEntry (.formatFieldC ">B")))
          (.erenamed (.renamedC (some "Else") (.formatFieldC ">B")) true
            (createEntry (.formatFieldC ">B"))) := by
      simp [demoIfC, createEntry, condFuncRepr]
    rw [hc, h.1]

mutual

/-- Flattening measure on entries: strictly decreases from a container
to every child its `subentries` getter can return, including the fresh
children an array rebuild creates (bounded through `gsize` of the
element grammar). -/
def fsize : Entry → Nat
  | .base _ => 1
  | .ebytes _ => 1
  | .eformatField _ _ => 1
  | .ebytesInteger _ => 1
  | .ebitsInteger _ => 1
  | .ecomputed _ => 1
  | .eseek _ => 1
  | .etell _ => 1
  | .epassE _ => 1
  | .eenum _ sub => 1 + fsize sub
  | .eflagsEnum _ sub => 1 + fsize sub
  | .erenamed _ _ sub => 1 + fsize sub
  | .etransparent _ sub => 1 + fsize sub
  | .etimestamp _ sub => 1 + fsize sub
  | .epeek _ sub => 1 + fsize sub
  | .erawCopy _ sub => 1 + fsize sub
  | .etenum _ sub => 1 + fsize sub
  | .etstruct _ sub => 1 + fsize sub
  | .etbitstruct _ sub => 1 + fsize sub
  | .estruct _ subs => 1 + fsizeList subs
  | .earray c sub cache => 1 + fsize sub + fsizeList cache + abound c
  | .egreedyRange c sub cache => 1 + fsize sub + fsizeList cache + abound c
  | .eifThenElse _ sT sE => 1 + fsize sT + fsize sE
  | .eswitch _ cases dflt => 1 + fsizeCases cases + fsizeOpt dflt

def fsizeList : List Entry → Nat
  | [] => 0
  | e :: r => fsize e + fsizeList r

def fsizeCases : List (String × Entry) → Nat
  | [] => 0
  | kv :: r => fsize kv.2 + fsizeCases r

def fsizeOpt : Option Entry → Nat
  | none => 0
  | some d => 1 + fsize d

/-- Headroom an array/greedy-range entry reserves for one rebuilt child
(a renamed wrapper around the element entry). -/
def abound : Construct → Nat
  | .arrayC _ sc => 2 + gsize sc
  | .greedyRangeC sc => 2 + gsize sc
  | _ => 0

/-- `fsize` of the entry `createEntry` builds for a grammar node,
computed on the grammar node itself. -/
def gsize : Construct → Nat
  | .bytesC _ => 1
  | .formatFieldC _ => 1
  | .bytesIntegerC _ _ _ => 1
  | .bitsIntegerC _ _ => 1
  | .computedC => 1
  | .seekC => 1
  | .tellC => 1
  | .passC => 1
  | .bytesSubC _ => 1
  | .paddedC => 1
  | .enumC s => 1 + gsize s
  | .flagsEnumC s => 1 + gsize s
  | .renamedC _ s => 1 + gsize s
  | .constC s => 1 + gsize s
  | .defaultC s => 1 + gsize s
  | .timestampC s => 1 + gsize s
  | .pointerC s => 1 + gsize s
  | .peekC s => 1 + gsize s
  | .rawCopyC s => 1 + gsize s
  | .transformedC s => 1 + gsize s
  | .restreamedC s => 1 + gsize s
  | .tstructC _ s => 1 + gsize s
  | .tbitstructC _ s => 1 + gsize s
  | .tenumC s => 1 + gsize s
  | .includeMetaC s => 1 + gsize s
  | .structC subs => 1 + gsizeList subs
  | .arrayC _ s => 1 + gsize s + (2 + gsize s)
  | .greedyRangeC s => 1 + gsize s + (2 + gsize s)
  | .ifThenElseC _ t e2 => 1 + (1 + gsize t) + (1 + gsize e2)
  | .switchC _ cases dflt => 1 + gsizeCases cases + gsizeOpt dflt

def gsizeList : List Construct → Nat
  | [] => 0
  | c :: r => gsize c + gsizeList r

def gsizeCases : List (String × Construct) → Nat
  | [] => 0
  | kv :: r => (1 + gsize kv.2) + gsizeCases r

def gsizeOpt : Option Construct → Nat
  | none => 0
  | some d => 1 + (1 + gsize d)

end

mutual

theorem fsize_createEntry (c : Construct) : fsize (createEntry c) = gsize c := by
  match c with
  | .bytesC l => simp [createEntry, fsize, gsize]
  | .formatFieldC f => simp [createEntry, fsize, gsize]
  | .bytesIntegerC l sg sw => simp [createEntry, fsize, gsize]
  | .bitsIntegerC l sg => simp [createEntry, fsize, gsize]
  | .computedC => simp [createEntry, fsize, gsize]
  | .seekC => simp [createEntry, fsize, gsize]
  | .tellC => simp [createEntry, fsize, gsize]
  | .passC => simp [createEntry, fsize, gsize]
  | .bytesSubC l => simp [createEntry, fsize, gsize]
  | .paddedC => simp [createEntry, fsize, gsize]
  | .enumC s => simp [createEntry, fsize, gsize, fsize_createEntry s]
  | .flagsEnumC s => simp [createEntry, fsize, gsize, fsize_createEntry s]
  | .renamedC n s => simp [createEntry, fsize, gsize, fsize_createEntry s]
  | .constC s => simp [createEntry, fsize, gsize, fsize_createEntry s]
  | .defaultC s => simp [createEntry, fsize, gsize, fsize_createEntry s]
  | .timestampC s => simp [createEntry, fsize, gsize, fsize_createEntry s]
  | .pointerC s => simp [createEntry, fsize, gsize, fsize_createEntry s]
  | .peekC s => simp [createEntry, fsize, gsize, fsize_createEntry s]
  | .rawCopyC s => simp [createEntry, fsize, gsize, fsize_createEntry s]
  | .transformedC s => simp [createEntry, fsize, gsize, fsize_createEntry s]
  | .restreamedC s => simp [createEntry, fsize, gsize, fsize_createEntry s]
  | .tstructC rev s => simp [createEntry, fsize, gsize, fsize_createEntry s]
  | .tbitstructC rev s => simp [createEntry, fsize, gsize, fsize_createEntry s]
  | .tenumC s => simp [createEntry, fsize, gsize, fsize_createEntry s]
  | .includeMetaC s => simp [createEntry, fsize, gsize, fsize_createEntry s]
  | .structC subs =>
    simp [createEntry, fsize, gsize, fsize_createEntryList subs]
  | .arrayC cnt s =>
    simp [createEntry, fsize, gsize, abound, fsize_createEntry s, fsizeList]
  | .greedyRangeC s =>
    simp [createEntry, fsize, gsize, abound, fsize_createEntry s, fsizeList]
  | .ifThenElseC cf t e2 =>
    simp [createEntry, fsize, gsize, fsize_createEntry t, fsize_createEntry e2]
  | .switchC kf cases dflt =>
    match dflt with
    | none =>
      simp [createEntry, fsize, gsize, fsizeOpt, gsizeOpt,
        fsize_createEntryCases kf cases]
    | some d =>
      simp [createEntry, fsize, gsize, fsizeOpt, gsizeOpt,
        fsize_createEntryCases kf cases, fsize_createEntry d]

theorem fsize_createEntryList (l : List Construct) :
    fsizeList (createEntryList l) = gsizeList l := by
  match l with
  | [] => simp [createEntryList, fsizeList, gsizeList]
  | c :: r =>
    simp [createEntryList, fsizeList, gsizeList, fsize_createEntry c,
      fsize_createEntryList r]

theorem fsize_createEntryCases (kf : KeyFunc) (l : List (String × Construct)) :
    fsizeCases (createEntryCases kf l) = gsizeCases l := by
  match l with
  | [] => simp [createEntryCases, fsizeCases, gsizeCases]
  | (k, v) :: r =>
    simp [createEntryCases, fsizeCases, gsizeCases, fsize, fsize_createEntry v,
      fsize_createEntryCases kf r]

end

theorem fsizeList_le_of_mem {s : Entry} {l : List Entry} (h : s ∈ l) :
    fsize s ≤ fsizeList l := by
  induction l with
  | nil => simp at h
  | cons x r ih =>
    rcases List.mem_cons.mp h with h1 | h2
    · subst h1
      simp [fsizeList]
    · have := ih h2
      simp [fsizeList]
      omega

theorem fsizeCases_le_of_mem {kv : String × Entry} {l : List (String × Entry)}
    (h : kv ∈ l) : fsize kv.2 ≤ fsizeCases l := by
  induction l with
  | nil => simp at h
  | cons x r ih =>
    rcases List.mem_cons.mp h with h1 | h2
    · subst h1
      simp [fsizeCases]
    · have := ih h2
      simp [fsizeCases]
      omega

theorem lookupCaseEntry_fsize {cases : List (String × Entry)} {s : String}
    {ce : Entry} (h : lookupCaseEntry cases s = some ce) :
    fsize ce ≤ fsizeCases cases := by
  induction cases with
  | nil => simp [lookupCaseEntry] at h
  | cons kv r ih =>
    obtain ⟨k, v⟩ := kv
    by_cases hk : k = s
    · simp [lookupCaseEntry, hk] at h
      subst h
      simp [fsizeCases]
    · simp [lookupCaseEntry, hk] at h
      have := ih h
      simp [fsizeCases]
      omega

/-- A `subentries` access to an array either keeps the cache or returns
freshly built children. -/
theorem arraySubentriesAccess_cases (root : PVal) (apath : List String)
    (count : CountSpec) (sub : Construct) (cache : List Entry) :
    arraySubentriesAccess root apath count sub cache = cache ∨
    ∃ n, arraySubentriesAccess root apath count sub cache
        = arrayFreshChildren sub n := by
  unfold arraySubentriesAccess
  by_cases h : ((cache.length : Int) = arrayLen root apath count)
  · left
    simp [h]
  · right
    refine ⟨(arrayLen root apath count).toNat, ?_⟩
    simp [h]

theorem arrayFreshChildren_fsize {sc : Construct} {n : Nat} {e : Entry}
    (h : e ∈ arrayFreshChildren sc n) : fsize e = 1 + gsize sc := by
  simp [arrayFreshChildren] at h
  obtain ⟨i, _, rfl⟩ := h
  have := fsize_createEntry (.renamedC (some (toString i)) sc)
  simpa [gsize] using this

/-- Every static child of a switch stays below a bound dominating the
case entries and the default entry. -/
theorem switchStaticSubs_fsize (anc : List Entry) (se : Entry)
    (cases : List (String × Entry)) (dflt : Option Entry) (B : Nat)
    (hcases : ∀ kv ∈ cases, fsize kv.2 < B)
    (hdflt : ∀ d, dflt = some d → fsize d < B) :
    ∀ p ∈ switchStaticSubs anc se cases dflt, fsize p.2 < B := by
  intro p hp
  simp only [switchStaticSubs, List.mem_append, List.mem_map] at hp
  rcases hp with ⟨kv, hkv, rfl⟩ | hd
  · exact hcases kv hkv
  · match dflt, hd with
    | some d, hd =>
      simp only [List.mem_singleton] at hd
      subst hd
      exact hdflt d rfl
    | none, hd => simp at hd

set_option maxHeartbeats 1000000

mutual

/-- Every child the `subentries` getter returns is strictly smaller than
its parent in the flattening measure; this bounds the depth-first
flattening recursion. -/
theorem entrySubs_fsize (root : PVal) (anc : List Entry) (e : Entry)
    (subs : List (List Entry × Entry))
    (h : entrySubs root anc e = .ok (some subs)) :
    ∀ p ∈ subs, fsize p.2 < fsize e := by
  match e with
  | .base _ => rw [entrySubs.eq_def] at h; simp at h
  | .ebytes _ => rw [entrySubs.eq_def] at h; simp at h
  | .eformatField _ _ => rw [entrySubs.eq_def] at h; simp at h
  | .ebytesInteger _ => rw [entrySubs.eq_def] at h; simp at h
  | .ebitsInteger _ => rw [entrySubs.eq_def] at h; simp at h
  | .ecomputed _ => rw [entrySubs.eq_def] at h; simp at h
  | .eseek _ => rw [entrySubs.eq_def] at h; simp at h
  | .etell _ => rw [entrySubs.eq_def] at h; simp at h
  | .epassE _ => rw [entrySubs.eq_def] at h; simp at h
  | .estruct c ssubs =>
    rw [entrySubs.eq_def] at h
    simp at h
    intro p hp
    rw [← h] at hp
    simp at hp
    obtain ⟨s, hs, rfl, rfl⟩ := hp
    have := fsizeList_le_of_mem hs
    simp [fsize]
    omega
  | .earray c sub cache =>
    rw [entrySubs.eq_def] at h
    match c, h with
    | .arrayC cnt sc, h =>
      simp at h
      intro p hp
      rw [← h] at hp
      simp at hp
      obtain ⟨s, hs, rfl, rfl⟩ := hp
      rcases arraySubentriesAccess_cases root
          (pathRev (.earray (.arrayC cnt sc) sub cache :: anc)) cnt sc cache with
        hc | ⟨n, hf⟩
      · rw [hc] at hs
        have := fsizeList_le_of_mem hs
        simp [fsize, abound]
        omega
      · rw [hf] at hs
        have := arrayFreshChildren_fsize hs
        simp [fsize, abound]
        omega
  | .egreedyRange c sub cache =>
    rw [entrySubs.eq_def] at h
    match c, h with
    | .greedyRangeC sc, h =>
      simp at h
      intro p hp
      rw [← h] at hp
      simp at hp
      obtain ⟨s, hs, rfl, rfl⟩ := hp
      rcases arraySubentriesAccess_cases root
          (pathRev (.egreedyRange (.greedyRangeC sc) sub cache :: anc))
          (.dyn "") sc cache with hc | ⟨n, hf⟩
      · rw [hc] at hs
        have := fsizeList_le_of_mem hs
        simp [fsize, abound]
        omega
      · rw [hf] at hs
        have := arrayFreshChildren_fsize hs
        simp [fsize, abound]
        omega
  | .eenum cc sub =>
    rw [entrySubs.eq_def] at h
    simp at h
    intro p hp
    have := entrySubs_fsize root (.eenum cc sub :: anc) sub subs h p hp
    simp [fsize]
    omega
  | .eflagsEnum cc sub =>
    rw [entrySubs.eq_def] at h
    simp at h
    intro p hp
    have := entrySubs_fsize root (.eflagsEnum cc sub :: anc) sub subs h p hp
    simp [fsize]
    omega
  | .erenamed cc ex sub =>
    rw [entrySubs.eq_def] at h
    simp at h
    intro p hp
    have := entrySubs_fsize root (.erenamed cc ex sub :: anc) sub subs h p hp
    simp [fsize]
    omega
  | .etransparent cc sub =>
    rw [entrySubs.eq_def] at h
    simp at h
    intro p hp
    have := entrySubs_fsize root (.etransparent cc sub :: anc) sub subs h p hp
    simp [fsize]
    omega
  | .etimestamp cc sub =>
    rw [entrySubs.eq_def] at h
    simp at h
    intro p hp
    have := entrySubs_fsize root (.etimestamp cc sub :: anc) sub subs h p hp
    simp [fsize]
    omega
  | .epeek cc sub =>
    rw [entrySubs.eq_def] at h
    simp at h
    intro p hp
    have := entrySubs_fsize root (.epeek cc sub :: anc) sub subs h p hp
    simp [fsize]
    omega
  | .erawCopy cc sub =>
    rw [entrySubs.eq_def] at h
    simp at h
    intro p hp
    have := entrySubs_fsize root (.erawCopy cc sub :: anc) sub subs h p hp
    simp [fsize]
    omega
  | .etenum cc sub =>
    rw [entrySubs.eq_def] at h
    simp at h
    intro p hp
    have := entrySubs_fsize root (.etenum cc sub :: anc) sub subs h p hp
    simp [fsize]
    omega
  | .etstruct c sub =>
    rw [entrySubs.eq_def] at h
    simp at h
    match hs : entrySubs root (.etstruct c sub :: anc) sub with
    | .error er => rw [hs] at h; simp at h
    | .ok none => rw [hs] at h; simp at h
    | .ok (some l) =>
      rw [hs] at h
      match c, h with
      | .tstructC rev s, h =>
        simp at h
        intro p hp
        have hpl : p ∈ l := by
          rw [← h] at hp
          by_cases hrev : rev <;> simp [hrev] at hp <;> assumption
        have := entrySubs_fsize root (.etstruct (.tstructC rev s) sub :: anc)
          sub l hs p hpl
        simp [fsize]
        omega
  | .etbitstruct c sub =>
    rw [entrySubs.eq_def] at h
    simp at h
    match hs : entrySubs root (.etbitstruct c sub :: anc) sub with
    | .error er => rw [hs] at h; simp at h
    | .ok none => rw [hs] at h; simp at h
    | .ok (some l) =>
      rw [hs] at h
      match c, h with
      | .tbitstructC rev s, h =>
        simp at h
        intro p hp
        have hpl : p ∈ l := by
          rw [← h] at hp
          by_cases hrev : rev <;> simp [hrev] at hp <;> assumption
        have := entrySubs_fsize root (.etbitstruct (.tbitstructC rev s) sub :: anc)
          sub l hs p hpl
        simp [fsize]
        omega
  | .eifThenElse c subThen subElse =>
    rw [entrySubs.eq_def] at h
    simp at h
    match hb : ifActiveBranch root (pathRev (.eifThenElse c subThen subElse :: anc))
        c with
    | .error er => rw [hb] at h; simp at h
    | .ok none =>
      rw [hb] at h
      simp at h
      intro p hp
      rw [← h] at hp
      simp at hp
      rcases hp with ⟨_, rfl⟩ | ⟨_, rfl⟩ <;> simp [fsize] <;> omega
    | .ok (some true) =>
      rw [hb] at h
      cases subThen <;> simp at h
      case erenamed cT exT sT =>
        intro p hp
        have := entrySubs_fsize root
          (.erenamed cT exT sT :: .eifThenElse c (.erenamed cT exT sT) subElse :: anc)
          sT subs h p hp
        simp [fsize]
        omega
    | .ok (some false) =>
      rw [hb] at h
      cases subElse <;> simp at h
      case erenamed cE exE sE =>
        intro p hp
        have := entrySubs_fsize root
          (.erenamed cE exE sE :: .eifThenElse c subThen (.erenamed cE exE sE) :: anc)
          sE subs h p hp
        simp [fsize]
        omega
  | .eswitch c cases dflt =>
    rw [entrySubs.eq_def] at h
    simp at h
    have hcb : ∀ kv ∈ cases, fsize kv.2 < fsize (.eswitch c cases dflt) := by
      intro kv hkv
      have := fsizeCases_le_of_mem hkv
      simp [fsize]
      omega
    have hdb : ∀ d, dflt = some d → fsize d < fsize (.eswitch c cases dflt) := by
      intro d hd
      subst hd
      simp [fsize, fsizeOpt]
      omega
    match hk : switchKeyEval root (pathRev (.eswitch c cases dflt :: anc)) c with
    | .error er => rw [hk] at h; simp at h
    | .ok none =>
      rw [hk] at h
      simp at h
      intro p hp
      rw [← h] at hp
      exact switchStaticSubs_fsize anc (.eswitch c cases dflt) cases dflt
        (fsize (.eswitch c cases dflt)) hcb hdb p hp
    | .ok (some key) =>
      rw [hk] at h
      match key, h with
      | .mk m (.strV s), h =>
        simp at h
        exact subsSwitchCases_fsize root (.eswitch c cases dflt :: anc) cases s dflt
          (switchStaticSubs anc (.eswitch c cases dflt) cases dflt)
          (fsize (.eswitch c cases dflt)) subs h
          (switchStaticSubs_fsize anc (.eswitch c cases dflt) cases dflt
            (fsize (.eswitch c cases dflt)) hcb hdb)
          hcb
          (fun d hd hsub => by
            have hfd := hdb d hd
            have := entrySubs_fsize root (.eswitch c cases dflt :: anc) d subs hsub
            intro p hp
            have := this p hp
            omega)
      | .mk m .noneV, h =>
        simp at h
        cases dflt with
        | some d =>
          simp at h
          intro p hp
          have := entrySubs_fsize root (.eswitch c cases (some d) :: anc) d subs h
            p hp
          have hd := hdb d rfl
          omega
        | none =>
          simp at h
          intro p hp
          rw [← h] at hp
          exact switchStaticSubs_fsize anc (.eswitch c cases none) cases none
            (fsize (.eswitch c cases none)) hcb hdb p hp
      | .mk m (.intV n2), h =>
        simp at h
        cases dflt with
        | some d =>
          simp at h
          intro p hp
          have := entrySubs_fsize root (.eswitch c cases (some d) :: anc) d subs h
            p hp
          have hd := hdb d rfl
          omega
        | none =>
          simp at h
          intro p hp
          rw [← h] at hp
          exact switchStaticSubs_fsize anc (.eswitch c cases none) cases none
            (fsize (.eswitch c cases none)) hcb hdb p hp
      | .mk m (.boolV b), h =>
        simp at h
        cases dflt with
        | some d =>
          simp at h
          intro p hp
          have := entrySubs_fsize root (.eswitch c cases (some d) :: anc) d subs h
            p hp
          have hd := hdb d rfl
          omega
        | none =>
          simp at h
          intro p hp
          rw [← h] at hp
          exact switchStaticSubs_fsize anc (.eswitch c cases none) cases none
            (fsize (.eswitch c cases none)) hcb hdb p hp
      | .mk m (.dictV kvs), h =>
        simp at h
        cases dflt with
        | some d =>
          simp at h
          intro p hp
          have := entrySubs_fsize root (.eswitch c cases (some d) :: anc) d subs h
            p hp
          have hd := hdb d rfl
          omega
        | none =>
          simp at h
          intro p hp
          rw [← h] at hp
          exact switchStaticSubs_fsize anc (.eswitch c cases none) cases none
            (fsize (.eswitch c cases none)) hcb hdb p hp
      | .mk m (.listV xs), h =>
        simp at h
        cases dflt with
        | some d =>
          simp at h
          intro p hp
          have := entrySubs_fsize root (.eswitch c cases (some d) :: anc) d subs h
            p hp
          have hd := hdb d rfl
          omega
        | none =>
          simp at h
          intro p hp
          rw [← h] at hp
          exact switchStaticSubs_fsize anc (.eswitch c cases none) cases none
            (fsize (.eswitch c cases none)) hcb hdb p hp
termination_by 2 * sizeOf e
decreasing_by
  all_goals simp_wf
  all_goals try omega
  all_goals (subst_vars; simp_wf; omega)

/-- Companion bound for the switch case walk: every child of whatever
the walk delegates to stays below the bound `B` (the owning switch's
measure), given that the static children and the case entries are below
`B` and that delegation to the default branch is already bounded. -/
theorem subsSwitchCases_fsize (root : PVal) (chain : List Entry)
    (cases : List (String × Entry)) (s : String) (dflt : Option Entry)
    (static : List (List Entry × Entry)) (B : Nat)
    (subs : List (List Entry × Entry))
    (h : subsSwitchCases root chain cases s dflt static = .ok (some subs))
    (hstatic : ∀ p ∈ static, fsize p.2 < B)
    (hcases : ∀ kv ∈ cases, fsize kv.2 < B)
    (hdel : ∀ d, dflt = some d → entrySubs root chain d = .ok (some subs) →
      ∀ p ∈ subs, fsize p.2 < B) :
    ∀ p ∈ subs, fsize p.2 < B := by
  match cases with
  | [] =>
    rw [subsSwitchCases.eq_def] at h
    cases dflt with
    | some d =>
      simp at h
      exact hdel d rfl h
    | none =>
      simp at h
      intro p hp
      rw [← h] at hp
      exact hstatic p hp
  | (k, ce) :: rest =>
    rw [subsSwitchCases.eq_def] at h
    by_cases hk : k = s
    · simp [hk] at h
      intro p hp
      have hce : fsize ce < B := hcases (k, ce) (List.mem_cons_self _ _)
      have := entrySubs_fsize root chain ce subs h p hp
      omega
    · simp [hk] at h
      exact subsSwitchCases_fsize root chain rest s dflt static B subs h hstatic
        (fun kv hkv => hcases kv (List.mem_cons_of_mem _ hkv)) hdel
termination_by 2 * (sizeOf cases + sizeOf dflt) + 1
decreasing_by all_goals simp_wf <;> omega

end

/- `create_flat_subentry_list` (wrapper.py:492-498) with an explicit
recursion budget: an entry with children recurses into each child in
order, an entry without children appends itself (paired with its
ancestor chain).  Exceptions raised while computing `subentries`
propagate.  The budget is a termination device only:
`flattenFuel_stable` shows any budget of at least `fsize e` computes the
same result, and `flattenEntry` below always supplies one. -/
mutual

/-- `create_flat_subentry_list` recursion step at a given budget. -/
def flattenFuel (fuel : Nat) (root : PVal) (anc : List Entry) (e : Entry) :
    Except PyErr (List (List Entry × Entry)) :=
  match fuel with
  | 0 => .ok []
  | f + 1 =>
    entrySubs root anc e >>= fun subs? =>
      match subs? with
      | none => .ok [(anc, e)]
      | some subs => flattenListFuel f root subs
termination_by (fuel, 0)
decreasing_by
  apply Prod.Lex.left
  omega

/-- Depth-first, left-to-right flattening of a child list. -/
def flattenListFuel (fuel : Nat) (root : PVal)
    (li : List (List Entry × Entry)) :
    Except PyErr (List (List Entry × Entry)) :=
  match li with
  | [] => .ok []
  | p :: rest =>
    flattenFuel fuel root p.1 p.2 >>= fun l1 =>
      flattenListFuel fuel root rest >>= fun l2 => .ok (l1 ++ l2)
termination_by (fuel, li.length + 1)
decreasing_by
  · apply Prod.Lex.right
    simp only [List.length_cons]
    omega
  · apply Prod.Lex.right
    simp only [List.length_cons]
    omega

end

theorem flattenFuel_stable (f1 : Nat) :
    (∀ (f2 : Nat) (root : PVal) (anc : List Entry) (e : Entry),
      fsize e ≤ f1 → fsize e ≤ f2 →
      flattenFuel f1 root anc e = flattenFuel f2 root anc e) ∧
    (∀ (f2 : Nat) (root : PVal) (l : List (List Entry × Entry)),
      (∀ p ∈ l, fsize p.2 ≤ f1) → (∀ p ∈ l, fsize p.2 ≤ f2) →
      flattenListFuel f1 root l = flattenListFuel f2 root l) := by
  induction f1 using Nat.strong_induction_on with
  | _ f1 ih =>
    have hmain : ∀ (f2 : Nat) (root : PVal) (anc : List Entry) (e : Entry),
        fsize e ≤ f1 → fsize e ≤ f2 →
        flattenFuel f1 root anc e = flattenFuel f2 root anc e := by
      intro f2 root anc e h1 h2
      have hpos : 1 ≤ fsize e := by
        cases e <;> simp [fsize] <;> omega
      obtain ⟨fa, rfl⟩ : ∃ fa, f1 = fa + 1 := ⟨f1 - 1, by omega⟩
      obtain ⟨fb, rfl⟩ : ∃ fb, f2 = fb + 1 := ⟨f2 - 1, by omega⟩
      simp only [flattenFuel]
      cases hs : entrySubs root anc e with
      | error er => rfl
      | ok subs? =>
        cases subs? with
        | none => rfl
        | some subs =>
          simp only [except_bind_ok]
          have hlist := (ih fa (by omega)).2 fb root subs
          have hb1 : ∀ p ∈ subs, fsize p.2 ≤ fa := by
            intro p hp
            have := entrySubs_fsize root anc e subs hs p hp
            omega
          have hb2 : ∀ p ∈ subs, fsize p.2 ≤ fb := by
            intro p hp
            have := entrySubs_fsize root anc e subs hs p hp
            omega
          exact hlist hb1 hb2
    refine ⟨hmain, ?_⟩
    intro f2 root l hb1 hb2
    induction l with
    | nil => simp [flattenListFuel]
    | cons p rest ihl =>
      simp only [flattenListFuel]
      have he := hmain f2 root p.1 p.2 (hb1 p (List.mem_cons_self _ _))
        (hb2 p (List.mem_cons_self _ _))
      rw [he]
      have hr := ihl (fun q hq => hb1 q (List.mem_cons_of_mem _ hq))
        (fun q hq => hb2 q (List.mem_cons_of_mem _ hq))
      rw [hr]

/-- `create_flat_subentry_list` at its natural recursion budget. -/
def flattenEntry (root : PVal) (anc : List Entry) (e : Entry) :
    Except PyErr (List (List Entry × Entry)) :=
  flattenFuel (fsize e) root anc e

/-- Flattening of a child list, each child at its own natural budget. -/
def flattenEntryList (root : PVal) :
    List (List Entry × Entry) → Except PyErr (List (List Entry × Entry))
  | [] => .ok []
  | p :: rest =>
    flattenEntry root p.1 p.2 >>= fun l1 =>
      flattenEntryList root rest >>= fun l2 => .ok (l1 ++ l2)

theorem flattenListFuel_eq_entryList (root : PVal)
    (l : List (List Entry × Entry)) (f : Nat) (hb : ∀ p ∈ l, fsize p.2 ≤ f) :
    flattenListFuel f root l = flattenEntryList root l := by
  induction l with
  | nil => simp [flattenListFuel, flattenEntryList]
  | cons p rest ihl =>
    simp only [flattenListFuel, flattenEntryList]
    have he : flattenFuel f root p.1 p.2 = flattenEntry root p.1 p.2 :=
      (flattenFuel_stable f).1 (fsize p.2) root p.1 p.2
        (hb p (List.mem_cons_self _ _)) (le_refl _)
    rw [he, ihl (fun q hq => hb q (List.mem_cons_of_mem _ hq))]

/-- The unfolding law of the flattening: a leaf flattens to itself, a
container flattens to the in-order concatenation of its flattened
children, and a failing `subentries` access propagates its error. -/
theorem flattenEntry_eq (root : PVal) (anc : List Entry) (e : Entry) :
    flattenEntry root anc e
      = entrySubs root anc e >>= fun subs? =>
          match subs? with
          | none => .ok [(anc, e)]
          | some subs => flattenEntryList root subs := by
  have hpos : 1 ≤ fsize e := by
    cases e <;> simp [fsize] <;> omega
  unfold flattenEntry
  obtain ⟨fa, hf⟩ : ∃ fa, fsize e = fa + 1 := ⟨fsize e - 1, by omega⟩
  rw [hf]
  simp only [flattenFuel]
  cases hs : entrySubs root anc e with
  | error er => rfl
  | ok subs? =>
    cases subs? with
    | none => rfl
    | some subs =>
      simp only [except_bind_ok]
      apply flattenListFuel_eq_entryList
      intro p hp
      have := entrySubs_fsize root anc e subs hs p hp
      omega

mutual

/-- Every element of a flattened list is a true leaf (its `subentries`
getter returns `None`): containers are excluded, leaves included. -/
theorem flattenEntry_leaves (root : PVal) (anc : List Entry) (e : Entry)
    (l : List (List Entry × Entry)) (h : flattenEntry root anc e = .ok l) :
    ∀ p ∈ l, entrySubs root p.1 p.2 = .ok none := by
  rw [flattenEntry_eq] at h
  match hs : entrySubs root anc e with
  | .error er => rw [hs] at h; simp at h
  | .ok none =>
    rw [hs] at h
    simp at h
    subst h
    intro p hp
    simp at hp
    subst hp
    exact hs
  | .ok (some subs) =>
    rw [hs] at h
    simp at h
    intro p hp
    have hb : ∀ q ∈ subs, fsize q.2 < fsize e :=
      entrySubs_fsize root anc e subs hs
    exact flattenEntryList_leaves root subs (fsize e) hb l h p hp
termination_by (2 * fsize e + 1, 0)
decreasing_by
  simp_wf
  apply Prod.Lex.left
  omega

theorem flattenEntryList_leaves (root : PVal) (li : List (List Entry × Entry))
    (B : Nat) (hb : ∀ p ∈ li, fsize p.2 < B) (l : List (List Entry × Entry))
    (h : flattenEntryList root li = .ok l) :
    ∀ p ∈ l, entrySubs root p.1 p.2 = .ok none := by
  match li with
  | [] =>
    simp [flattenEntryList] at h
    subst h
    intro p hp
    simp at hp
  | q :: rest =>
    rw [flattenEntryList] at h
    match h1 : flattenEntry root q.1 q.2 with
    | .error er => rw [h1] at h; simp at h
    | .ok l1 =>
      rw [h1] at h
      simp only [except_bind_ok] at h
      match h2 : flattenEntryList root rest with
      | .error er => rw [h2] at h; simp at h
      | .ok l2 =>
        rw [h2] at h
        simp at h
        subst h
        intro p hp
        rcases List.mem_append.mp hp with hp1 | hp2
        · exact flattenEntry_leaves root q.1 q.2 l1 h1 p hp1
        · exact flattenEntryList_leaves root rest B
            (fun r hr => hb r (List.mem_cons_of_mem _ hr)) l2 h2 p hp2
termination_by (2 * B, li.length)
decreasing_by
  · simp_wf
    have := hb q (List.mem_cons_self q rest)
    apply Prod.Lex.left
    omega
  · simp_wf
    apply Prod.Lex.right
    omega

end

/-- The value a tree-model cell holds: a string, or the entry itself for
the value column. -/
inductive CellValue where
  | str (s : String)
  | ent (e : Entry)

/-- `ConstructEditorModel.get_value` (model.py:117-139): name for column
0, `typ_str` for column 1, the entry itself for column 2; beyond that,
the empty string unless the entry's parent is list-viewed, in which case
the entry's subtree is flattened and the cell selects the flattened
leaf's `obj_str` at index `column - 3` (len of `ConstructEditorColumn`),
or the empty string when out of range.  `viewed` models the
identity-based membership test `entry.parent in self.list_viewed_entries`
(`in` compares with the default object equality). -/
def getValue (root : PVal) (viewed : Entry → Bool) (anc : List Entry) (e : Entry)
    (column : Nat) : Except PyErr CellValue :=
  if column = 0 then .ok (.str e.name)
  else if column = 1 then (entryTypStr root anc e).map .str
  else if column = 2 then .ok (.ent e)
  else
    match anc with
    | [] => .ok (.str "")
    | parent :: _ =>
      if !viewed parent then .ok (.str "")
      else
        flattenEntry root anc e >>= fun flat =>
          match flat[(column - 3)]? with
          | some p => (entryObjStr root p.1 p.2).map .str
          | none => .ok (.str "")

/-- C6 confirmed: `get_value` returns the name for column 0, the type
label for column 1 and the entry itself for column 2; for a column
greater than 2 it returns the empty string when the entry has no parent
or its parent is not list-viewed, and otherwise flattens the entry's
subtree depth-first (containers excluded — every flattened element is a
leaf — leaves in traversal order) and returns the leaf's `obj_str` at
index `column - 3`, or the empty string when that index is out of
range. -/
theorem C6_get_value_columns :
    (∀ (root : PVal) (viewed : Entry → Bool) (anc : List Entry) (e : Entry),
        getValue root viewed anc e 0 = .ok (.str e.name)) ∧
    (∀ (root : PVal) (viewed : Entry → Bool) (anc : List Entry) (e : Entry),
        getValue root viewed anc e 1 = (entryTypStr root anc e).map .str) ∧
    (∀ (root : PVal) (viewed : Entry → Bool) (anc : List Entry) (e : Entry),
        getValue root viewed anc e 2 = .ok (.ent e)) ∧
    (∀ (root : PVal) (viewed : Entry → Bool) (e : Entry) (col : Nat),
        2 < col → getValue root viewed [] e col = .ok (.str "")) ∧
    (∀ (root : PVal) (viewed : Entry → Bool) (parent : Entry) (rest : List Entry)
        (e : Entry) (col : Nat),
        2 < col → viewed parent = false →
        getValue root viewed (parent :: rest) e col = .ok (.str "")) ∧
    (∀ (root : PVal) (viewed : Entry → Bool) (parent : Entry) (rest : List Entry)
        (e : Entry) (col : Nat) (flat : List (List Entry × Entry))
        (p : List Entry × Entry),
        2 < col → viewed parent = true →
        flattenEntry root (parent :: rest) e = .ok flat →
        flat[(col - 3)]? = some p →
        getValue root viewed (parent :: rest) e col
          = (entryObjStr root p.1 p.2).map .str) ∧
    (∀ (root : PVal) (viewed : Entry → Bool) (parent : Entry) (rest : List Entry)
        (e : Entry) (col : Nat) (flat : List (List Entry × Entry)),
        2 < col → viewed parent = true →
        flattenEntry root (parent :: rest) e = .ok flat →
        flat.length ≤ col - 3 →
        getValue root viewed (parent :: rest) e col = .ok (.str "")) ∧
    (∀ (root : PVal) (anc : List Entry) (e : Entry)
        (flat : List (List Entry × Entry)),
        flattenEntry root anc e = .ok flat →
        ∀ p ∈ flat, entrySubs root p.1 p.2 = .ok none) := by
  refine ⟨?_, ?_, ?_, ?_, ?_, ?_, ?_, ?_⟩
  · intro root viewed anc e
    simp [getValue]
  · intro root viewed anc e
    simp [getValue]
  · intro root viewed anc e
    simp [getValue]
  · intro root viewed e col hcol
    have h0 : ¬(col = 0) := by omega
    have h1 : ¬(col = 1) := by omega
    have h2 : ¬(col = 2) := by omega
    simp [getValue, h0, h1, h2]
  · intro root viewed parent rest e col hcol hv
    have h0 : ¬(col = 0) := by omega
    have h1 : ¬(col = 1) := by omega
    have h2 : ¬(col = 2) := by omega
    simp [getValue, h0, h1, h2, hv]
  · intro root viewed parent rest e col flat p hcol hv hf hg
    have h0 : ¬(col = 0) := by omega
    have h1 : ¬(col = 1) := by omega
    have h2 : ¬(col = 2) := by omega
    simp [getValue, h0, h1, h2, hv, hf, hg]
  · intro root viewed parent rest e col flat hcol hv hf hlen
    have h0 : ¬(col = 0) := by omega
    have h1 : ¬(col = 1) := by omega
    have h2 : ¬(col = 2) := by omega
    have hg : flat[(col - 3)]? = none := List.getElem?_eq_none hlen
    simp [getValue, h0, h1, h2, hv, hf, hg]
  · intro root anc e flat hf
    exact flattenEntry_leaves root anc e flat hf

/-- A concrete leaf entry used to exercise `getValue`. -/
def demoLeafE : Entry := createEntry (.formatFieldC ">B")

theorem C6_get_value_columns_witness :
    getValue leafFive (fun _ => false) [] demoLeafE 3 = .ok (.str "") ∧
    getValue leafFive (fun _ => false) [demoLeafE] demoLeafE 3 = .ok (.str "") ∧
    getValue leafFive (fun _ => true) [demoLeafE] demoLeafE 3
      = (entryObjStr leafFive [demoLeafE] demoLeafE).map .str ∧
    getValue leafFive (fun _ => true) [demoLeafE] demoLeafE 4 = .ok (.str "") ∧
    entrySubs leafFive [demoLeafE] demoLeafE = .ok none := by
  have hf : flattenEntry leafFive [demoLeafE] demoLeafE
      = .ok [([demoLeafE], demoLeafE)] := by
    rw [flattenEntry_eq]
    simp [demoLeafE, createEntry, entrySubs]
  refine ⟨?_, ?_, ?_, ?_, ?_⟩
  · exact C6_get_value_columns.2.2.2.1 leafFive (fun _ => false) demoLeafE 3
      (by decide)
  · exact C6_get_value_columns.2.2.2.2.1 leafFive (fun _ => false) demoLeafE []
      demoLeafE 3 (by decide) rfl
  · exact C6_get_value_columns.2.2.2.2.2.1 leafFive (fun _ => true) demoLeafE []
      demoLeafE 3 [([demoLeafE], demoLeafE)] ([demoLeafE], demoLeafE)
      (by decide) rfl hf rfl
  · exact C6_get_value_columns.2.2.2.2.2.2.1 leafFive (fun _ => true) demoLeafE
      [] demoLeafE 4 [([demoLeafE], demoLeafE)] (by decide) rfl hf (by decide)
  · exact C6_get_value_columns.2.2.2.2.2.2.2 leafFive [demoLeafE] demoLeafE
      [([demoLeafE], demoLeafE)] hf ([demoLeafE], demoLeafE) (by simp)

/-- The index guard shared by `pyListGet` and `pyListSet`: the
(negatively wrapped) index lands inside the list. -/
def listIndexOk (xs : List PVal) (i : Int) : Bool :=
  let j : Int := if i < 0 then i + xs.length else i
  decide (0 ≤ j ∧ j < xs.length)

/-- Whether the `obj` setter's traversal of a path actually lands on a
container slot: every intermediate segment resolves through a dict key
or an in-range list index, and the final segment hits a dict (any key
is assignable) or an in-range list index.  A non-container along the
way is skipped by the setter, and a skipped object can never become a
container again, so such paths are unwritable
(`pathWritable_not_container`). -/
def pathWritable (obj : PVal) (path : List String) : Bool :=
  match path with
  | [] => false
  | [last] =>
    match obj with
    | .mk _ (.dictV _) => true
    | .mk _ (.listV xs) =>
      match pyParseInt last with
      | some i => listIndexOk xs i
      | none => false
    | _ => false
  | p :: rest =>
    match obj with
    | .mk _ (.dictV kvs) =>
      match dictLookup kvs p with
      | some child => pathWritable child rest
      | none => false
    | .mk _ (.listV xs) =>
      match pyParseInt p with
      | some i =>
        match pyListGet xs i with
        | .ok child => pathWritable child rest
        | .error _ => false
      | none => false
    | other => pathWritable other rest

theorem dictLookup_dictSet_self (kvs : List (String × PVal)) (k : String)
    (v : PVal) : dictLookup (dictSet kvs k v) k = some v := by
  induction kvs with
  | nil => simp [dictSet, dictLookup]
  | cons kv rest ih =>
    obtain ⟨k0, v0⟩ := kv
    by_cases h : k0 = k
    · simp [dictSet, dictLookup, h]
    · simp [dictSet, dictLookup, h, ih]

theorem listIndexOk_of_get (xs : List PVal) (i : Int) (c : PVal)
    (h : pyListGet xs i = .ok c) : listIndexOk xs i = true := by
  by_cases hc : 0 ≤ (if i < 0 then i + (xs.length : Int) else i) ∧
      (if i < 0 then i + (xs.length : Int) else i) < (xs.length : Int)
  · simp [listIndexOk, hc]
  · exfalso
    simp only [pyListGet] at h
    rw [dif_neg hc] at h
    simp at h

theorem readPath_cons (obj next : PVal) (p : String) (ps : List String)
    (h : readStep obj p = .ok next) : readPath obj (p :: ps) = readPath next ps := by
  simp only [readPath, h]

theorem pyListSet_roundtrip (xs : List PVal) (i : Int) (v : PVal)
    (h : listIndexOk xs i = true) :
    ∃ xs2, pyListSet xs i v = .ok xs2 ∧ xs2.length = xs.length ∧
      pyListGet xs2 i = .ok v ∧ listIndexOk xs2 i = true := by
  simp only [listIndexOk, decide_eq_true_eq] at h
  obtain ⟨h1, h2⟩ := h
  refine ⟨xs.set (if i < 0 then i + (xs.length : Int) else i).toNat v,
    ?_, ?_, ?_, ?_⟩
  · simp only [pyListSet]
    rw [if_pos ⟨h1, h2⟩]
  · simp
  · simp only [pyListGet, List.length_set]
    rw [dif_pos ⟨h1, h2⟩]
    congr 1
    apply List.get_set_eq
  · simp only [listIndexOk, List.length_set, decide_eq_true_eq]
    exact ⟨h1, h2⟩

theorem pathWritable_not_container (path : List String) :
    ∀ (obj : PVal), obj.isContainer = false → pathWritable obj path = false := by
  induction path with
  | nil => intro obj h; rfl
  | cons p rest ih =>
    intro obj h
    obtain ⟨m, core⟩ := obj
    cases rest with
    | nil =>
      cases core with
      | dictV kvs => simp [PVal.isContainer] at h
      | listV xs => simp [PVal.isContainer] at h
      | noneV => rfl
      | intV n => rfl
      | boolV b => rfl
      | strV s => rfl
    | cons q rest2 =>
      cases core with
      | dictV kvs => simp [PVal.isContainer] at h
      | listV xs => simp [PVal.isContainer] at h
      | noneV => exact ih _ h
      | intV n => exact ih _ h
      | boolV b => exact ih _ h
      | strV s => exact ih _ h

/-- A writable path really gets written: the write succeeds, reading
the same path afterwards returns exactly the written value, and the
path stays writable (so a later undo-write succeeds too). -/
theorem writePath_roundtrip (path : List String) :
    ∀ (obj v : PVal), pathWritable obj path = true →
      ∃ r, writePath obj path v = .ok r ∧ readPath r path = .ok v ∧
        pathWritable r path = true := by
  induction path with
  | nil => intro obj v h; simp [pathWritable] at h
  | cons p rest ih =>
    intro obj v h
    obtain ⟨m, core⟩ := obj
    cases rest with
    | nil =>
      cases core with
      | dictV kvs =>
        refine ⟨.mk m (.dictV (dictSet kvs p v)), ?_, ?_, ?_⟩
        · simp [writePath, writeLast]
        · rw [readPath_cons _ v p [] (by simp [readStep, dictLookup_dictSet_self])]
          simp [readPath]
        · simp [pathWritable]
      | listV xs =>
        simp only [pathWritable] at h
        cases hp : pyParseInt p with
        | none => rw [hp] at h; simp at h
        | some i =>
          rw [hp] at h
          simp at h
          obtain ⟨xs2, hset, hlen, hget, hok⟩ := pyListSet_roundtrip xs i v h
          refine ⟨.mk m (.listV xs2), ?_, ?_, ?_⟩
          · simp [writePath, writeLast, hp, hset, Except.map]
          · rw [readPath_cons _ v p [] (by simp [readStep, hp, hget])]
            simp [readPath]
          · simp [pathWritable, hp, hok]
      | noneV => simp [pathWritable] at h
      | intV n => simp [pathWritable] at h
      | boolV b => simp [pathWritable] at h
      | strV s => simp [pathWritable] at h
    | cons q rest2 =>
      cases core with
      | dictV kvs =>
        simp only [pathWritable] at h
        cases hl : dictLookup kvs p with
        | none => rw [hl] at h; simp at h
        | some child =>
          rw [hl] at h; simp at h
          obtain ⟨rc, hwc, hrc, hwrc⟩ := ih child v h
          refine ⟨.mk m (.dictV (dictSet kvs p rc)), ?_, ?_, ?_⟩
          · simp [writePath, hl, hwc]
          · rw [readPath_cons _ rc p (q :: rest2)
              (by simp [readStep, dictLookup_dictSet_self])]
            exact hrc
          · simp [pathWritable, dictLookup_dictSet_self, hwrc]
      | listV xs =>
        simp only [pathWritable] at h
        cases hp : pyParseInt p with
        | none => rw [hp] at h; simp at h
        | some i =>
          rw [hp] at h
          simp at h
          cases hg : pyListGet xs i with
          | error er => rw [hg] at h; simp at h
          | ok child =>
            rw [hg] at h; simp at h
            obtain ⟨rc, hwc, hrc, hwrc⟩ := ih child v h
            have hidx := listIndexOk_of_get xs i child hg
            obtain ⟨xs2, hset, hlen, hget, hok⟩ := pyListSet_roundtrip xs i rc hidx
            refine ⟨.mk m (.listV xs2), ?_, ?_, ?_⟩
            · simp [writePath, hp, hg, hwc, hset, Except.map]
            · rw [readPath_cons _ rc p (q :: rest2) (by simp [readStep, hp, hget])]
              exact hrc
            · simp [pathWritable, hp, hget, hwrc]
      | noneV =>
        have := pathWritable_not_container (q :: rest2) (.mk m .noneV) rfl
        rw [show pathWritable (.mk m .noneV) (p :: q :: rest2)
            = pathWritable (.mk m .noneV) (q :: rest2) from rfl, this] at h
        simp at h
      | intV n =>
        have := pathWritable_not_container (q :: rest2) (.mk m (.intV n)) rfl
        rw [show pathWritable (.mk m (.intV n)) (p :: q :: rest2)
            = pathWritable (.mk m (.intV n)) (q :: rest2) from rfl, this] at h
        simp at h
      | boolV b =>
        have := pathWritable_not_container (q :: rest2) (.mk m (.boolV b)) rfl
        rw [show pathWritable (.mk m (.boolV b)) (p :: q :: rest2)
            = pathWritable (.mk m (.boolV b)) (q :: rest2) from rfl, this] at h
        simp at h
      | strV s =>
        have := pathWritable_not_container (q :: rest2) (.mk m (.strV s)) rfl
        rw [show pathWritable (.mk m (.strV s)) (p :: q :: rest2)
            = pathWritable (.mk m (.strV s)) (q :: rest2) from rfl, this] at h
        simp at h

/-- The command built by `ConstructEditorModel.set_value`
(model.py:160-171): the label, the target path, the (metadata-linked)
new value, the captured backup of the old value, and the entry passed
to `on_value_changed`. -/
structure EditCmd where
  label : String
  path : List String
  newValue : PVal
  backup : PVal
  target : Entry

/-- The mutable state touched by `set_value`: the model's root object,
the command processor's history, and the sequence of entries passed to
the abstract `on_value_changed` hook. -/
structure ModelState where
  rootObj : PVal
  history : List EditCmd
  notified : List Entry

/-- `Cmd.do` (model.py:164-167): write the new value through the `obj`
setter and call `on_value_changed(entry)`.  A traversal error of the
setter propagates, leaving the state unchanged. -/
def cmdDo (st : ModelState) (c : EditCmd) : ModelState × Except PyErr Unit :=
  match writePath st.rootObj c.path c.newValue with
  | .ok r => (⟨r, st.history, st.notified ++ [c.target]⟩, .ok ())
  | .error er => (st, .error er)

/-- `Cmd.undo` (model.py:169-171): write the captured backup through
the `obj` setter and call `on_value_changed(entry)`. -/
def cmdUndo (st : ModelState) (c : EditCmd) : ModelState × Except PyErr Unit :=
  match writePath st.rootObj c.path c.backup with
  | .ok r => (⟨r, st.history, st.notified ++ [c.target]⟩, .ok ())
  | .error er => (st, .error er)

/-- Modelled from the spec: the command processor is an opaque service
whose `submit(command)` "synchronously invokes do() once" and keeps the
command on a bounded undo/redo history.  A command whose `do` raises is
not recorded. -/
def submitCmd (st : ModelState) (c : EditCmd) : ModelState × Except PyErr Unit :=
  match cmdDo st c with
  | (st2, .ok _) => (⟨st2.rootObj, st2.history ++ [c], st2.notified⟩, .ok ())
  | (st2, .error er) => (st2, .error er)

/-- `ConstructEditorModel.set_value` (model.py:141-173): any column
other than the value column (2) raises `ValueError` up front; then the
current value is read through the `obj` getter (errors propagate), GUI
metadata found on it is linked onto the new value, the command's label
is built from `entry.path[-1]` (`IndexError` on an empty path, before
submission), and the command is submitted, which runs its `do` once. -/
def setValue (st : ModelState) (newValue : PVal) (anc : List Entry)
    (e : Entry) (column : Nat) : ModelState × Except PyErr EditCmd :=
  if column = 2 then
    match readPath st.rootObj (pathRev (e :: anc)) with
    | .error er => (st, .error er)
    | .ok currentValue =>
      let newV : PVal :=
        match getGuiMetadata currentValue with
        | some m2 => addGuiMetadata newValue m2
        | none => newValue
      match (pathRev (e :: anc)).getLast? with
      | none => (st, .error .indexError)
      | some seg =>
        let cmd : EditCmd :=
          ⟨"Value " ++ String.singleton (Char.ofNat 39) ++ seg ++
             String.singleton (Char.ofNat 39) ++ " changed",
           pathRev (e :: anc), newV, currentValue, e⟩
        match submitCmd st cmd with
        | (st2, .ok _) => (st2, .ok cmd)
        | (st2, .error er) => (st2, .error er)
  else (st, .error .valueError)

/-- C9 confirmed: `set_value` on any column other than the value column
(2) fails with `ValueError` before anything happens: the returned state
is exactly the input state — same root object, same command history (no
command submitted), same notification sequence (`on_value_changed`
never called). -/
theorem C9_invalid_column_no_mutation (st : ModelState) (newValue : PVal)
    (anc : List Entry) (e : Entry) (column : Nat) (h : column ≠ 2) :
    setValue st newValue anc e column = (st, .error .valueError) := by
  simp [setValue, h]

theorem C9_invalid_column_no_mutation_witness :
    setValue ⟨leafFive, [], []⟩ leafFive [] demoLeafE 0
      = (⟨leafFive, [], []⟩, .error .valueError) :=
  C9_invalid_column_no_mutation ⟨leafFive, [], []⟩ leafFive [] demoLeafE 0
    (by decide)

/-- C10 confirmed: when the entry's path is empty (a root entry, or one
reached only through unnamed/excluded wrappers), `set_value` on the
value column reads the current value without error (an empty-path read
returns the root object) and then fails with `IndexError` while
evaluating `entry.path[-1]` for the command label, before the command
is submitted: the state — root object, history, notifications — is
returned unchanged. -/
theorem C10_empty_path_index_error (st : ModelState) (newValue : PVal)
    (anc : List Entry) (e : Entry) (h : pathRev (e :: anc) = []) :
    setValue st newValue anc e 2 = (st, .error .indexError) := by
  simp [setValue, h, readPath]

theorem C10_empty_path_index_error_witness :
    setValue ⟨leafFive, [], []⟩ leafFive [] demoLeafE 2
      = (⟨leafFive, [], []⟩, .error .indexError) :=
  C10_empty_path_index_error ⟨leafFive, [], []⟩ leafFive [] demoLeafE rfl

/-- An entry named "a" sitting under a root entry, so its path is
`["a"]`. -/
def entryA : Entry := createEntry (.renamedC (some "a") (.formatFieldC ">B"))

/-- C7 counterexample: over the root object `5` (not a container), an
entry with path `["a"]` has its `set_value` succeed — the command is
submitted, its `do` runs and `on_value_changed` is called — but the
setter's traversal falls through both `isinstance` tests and silently
writes nothing, so a read of the same path right after `set_value`
still observes the old leaf `5`, not the new value `7`: the claimed
unconditional "a set_value followed by a read of the same path observes
the new value" is false. -/
theorem C7_round_trip_counterexample :
    ∃ (st1 : ModelState) (cmd : EditCmd),
      setValue ⟨leafFive, [], []⟩ (.mk none (.intV 7)) [demoLeafE] entryA 2
        = (st1, .ok cmd) ∧
      cmd.newValue = .mk none (.intV 7) ∧
      readPath st1.rootObj (pathRev (entryA :: [demoLeafE])) = .ok leafFive ∧
      leafFive.core ≠ (PVal.mk none (.intV 7)).core := by
  refine ⟨_, _, rfl, rfl, rfl, ?_⟩
  simp [leafFive, PVal.core]

/-- C7 corrected: provided the entry's path is writable over the current
root object (every segment resolves through a dict key or an in-range
list index down to a final dict or in-range list slot) and the current
value at that path is readable, the round trip holds: `set_value` on the
value column submits a command whose `do` has run, so a read of the same
path observes the stored value — the new value with the old value's GUI
metadata linked on, its core equal to the requested value's core; the
command's backup is the pre-edit value; `on_value_changed` has been
called once; the command is on the history; invoking the command's undo
succeeds, a read then observes the pre-edit value again, and
`on_value_changed` has been called exactly twice in total. -/
theorem C7_undo_round_trip_amended (st : ModelState) (newValue : PVal)
    (anc : List Entry) (e : Entry) (oldV : PVal)
    (hread : readPath st.rootObj (pathRev (e :: anc)) = .ok oldV)
    (hw : pathWritable st.rootObj (pathRev (e :: anc)) = true) :
    ∃ (cmd : EditCmd) (st1 st2 : ModelState),
      setValue st newValue anc e 2 = (st1, .ok cmd) ∧
      cmd.backup = oldV ∧
      cmd.newValue.core = newValue.core ∧
      readPath st1.rootObj (pathRev (e :: anc)) = .ok cmd.newValue ∧
      st1.notified = st.notified ++ [e] ∧
      st1.history = st.history ++ [cmd] ∧
      cmdUndo st1 cmd = (st2, .ok ()) ∧
      readPath st2.rootObj (pathRev (e :: anc)) = .ok oldV ∧
      st2.notified = st.notified ++ [e, e] := by
  have hne : pathRev (e :: anc) ≠ [] := by
    intro h0
    rw [h0] at hw
    simp [pathWritable] at hw
  have hsome : (pathRev (e :: anc)).getLast?.isSome :=
    List.getLast?_isSome.mpr hne
  obtain ⟨seg, hlast⟩ := Option.isSome_iff_exists.mp hsome
  set newV : PVal :=
    (match getGuiMetadata oldV with
     | some m2 => addGuiMetadata newValue m2
     | none => newValue) with hnewV
  obtain ⟨r1, hw1, hr1, hwr1⟩ := writePath_roundtrip (pathRev (e :: anc))
    st.rootObj newV hw
  set cmdv : EditCmd :=
    ⟨"Value " ++ String.singleton (Char.ofNat 39) ++ seg ++
       String.singleton (Char.ofNat 39) ++ " changed",
     pathRev (e :: anc), newV, oldV, e⟩ with hcmdv
  have hset : setValue st newValue anc e 2
      = (⟨r1, st.history ++ [cmdv], st.notified ++ [e]⟩, .ok cmdv) := by
    simp only [setValue, hread, hlast, submitCmd, cmdDo, hcmdv, hw1]
    simp [← hnewV]
  obtain ⟨r2, hw2, hr2, hwr2⟩ := writePath_roundtrip (pathRev (e :: anc))
    r1 oldV hwr1
  refine ⟨cmdv, ⟨r1, st.history ++ [cmdv], st.notified ++ [e]⟩,
    ⟨r2, st.history ++ [cmdv], (st.notified ++ [e]) ++ [e]⟩,
    hset, rfl, ?_, hr1, rfl, rfl, ?_, hr2, by simp⟩
  · have hproj : cmdv.newValue = newV := rfl
    rw [hproj, hnewV]
    cases getGuiMetadata oldV <;> simp [addGuiMetadata, PVal.core]
  · simp only [cmdUndo, hcmdv, hw2]

theorem C7_undo_round_trip_amended_witness :
    readPath (PVal.mk none (.dictV [("a", leafFive)]))
        (pathRev (entryA :: [demoLeafE])) = .ok leafFive ∧
    pathWritable (PVal.mk none (.dictV [("a", leafFive)]))
        (pathRev (entryA :: [demoLeafE])) = true ∧
    ∃ (cmd : EditCmd) (st1 st2 : ModelState),
      setValue ⟨.mk none (.dictV [("a", leafFive)]), [], []⟩
          (.mk none (.intV 7)) [demoLeafE] entryA 2 = (st1, .ok cmd) ∧
      cmd.backup = leafFive ∧
      cmd.newValue.core = (PVal.mk none (.intV 7)).core ∧
      readPath st1.rootObj (pathRev (entryA :: [demoLeafE])) = .ok cmd.newValue ∧
      st1.notified = ([] : List Entry) ++ [entryA] ∧
      st1.history = ([] : List EditCmd) ++ [cmd] ∧
      cmdUndo st1 cmd = (st2, .ok ()) ∧
      readPath st2.rootObj (pathRev (entryA :: [demoLeafE])) = .ok leafFive ∧
      st2.notified = ([] : List Entry) ++ [entryA, entryA] :=
  ⟨rfl, rfl, C7_undo_round_trip_amended
    ⟨.mk none (.dictV [("a", leafFive)]), [], []⟩ (.mk none (.intV 7))
    [demoLeafE] entryA leafFive rfl rfl⟩
